import Mathlib

/-!
  Verification development for the Collabapp kanban server.

  Shallow embedding of the server's data model (Mongo documents for tasks,
  lists and boards) and of the request handlers that manipulate task /
  list order:

  * `PUT /api/tasks/:id/move`    (server/routes/tasks.js, `moveTask` below)
  * `PUT /api/tasks/reorder`     (server/routes/tasks.js, `reorderTasks` below)
  * `PUT /api/lists/reorder`     (server/routes/lists.js, `reorderLists` below)
  * `POST /api/lists/:id/tasks`  (server/routes/lists.js, `createTask` below)
  * `DELETE /api/tasks/:id`      (server/routes/tasks.js, `deleteTask` below)

  together with the schema methods they call (`listSchema.methods.removeTask`,
  `listSchema.methods.addTask`, `boardSchema.methods.addActivity`,
  `boardSchema.methods.isMember`, `taskSchema.statics.getNextPosition`).

  Mongo object ids are modelled as `Nat`.  Each collection is a list of
  documents; `findById` is `List.find?` on the id field; a mongoose
  `document.save()` writes the in-memory document back over every stored
  document carrying the same id.  Handlers return `Except ApiError`, with the
  mutated store and the socket event they emit on success; every error exit
  of the JS handlers happens before the first write, so an error leaves the
  store untouched, which the `Except` encoding reflects.
-/

namespace Collab

/-- A document of the `Task` collection (server/models/Task.js): the fields
relevant to ordering are the `list` back-reference, the denormalized `board`
reference and the integer `position`. -/
structure TaskDoc where
  id : Nat
  title : String
  list : Nat
  board : Nat
  position : Nat
deriving Repr, DecidableEq

/-- A document of the `List` collection (server/models/List.js): the explicit
ordered `tasks` array of task ids, the `board` back-reference and the list's
own `position` among its board's lists. -/
structure ListDoc where
  id : Nat
  title : String
  board : Nat
  tasks : List Nat
  position : Nat
deriving Repr, DecidableEq

/-- One entry of a board's bounded activity log
(server/models/Board.js, `activity` subdocument array). -/
structure ActivityEntry where
  user : Nat
  action : String
  details : String
deriving Repr, DecidableEq

/-- A document of the `Board` collection (server/models/Board.js): owner,
member user ids, the explicit `lists` array and the activity log. -/
structure BoardDoc where
  id : Nat
  owner : Nat
  members : List Nat
  lists : List Nat
  activity : List ActivityEntry
deriving Repr, DecidableEq

/-- The persistent store: the three Mongo collections. -/
structure DB where
  tasks : List TaskDoc
  lists : List ListDoc
  boards : List BoardDoc
deriving Repr, DecidableEq

/-- `Task.findById` -/
def DB.findTask (db : DB) (i : Nat) : Option TaskDoc :=
  db.tasks.find? (fun t => t.id == i)

/-- `List.findById` -/
def DB.findList (db : DB) (i : Nat) : Option ListDoc :=
  db.lists.find? (fun l => l.id == i)

/-- `Board.findById` -/
def DB.findBoard (db : DB) (i : Nat) : Option BoardDoc :=
  db.boards.find? (fun b => b.id == i)

/-- `document.save()` for a task: overwrite the stored document with the
same id. -/
def DB.saveTask (db : DB) (t : TaskDoc) : DB :=
  { db with tasks := db.tasks.map (fun u => if u.id == t.id then t else u) }

/-- `document.save()` for a list. -/
def DB.saveList (db : DB) (l : ListDoc) : DB :=
  { db with lists := db.lists.map (fun m => if m.id == l.id then l else m) }

/-- `document.save()` for a board. -/
def DB.saveBoard (db : DB) (b : BoardDoc) : DB :=
  { db with boards := db.boards.map (fun c => if c.id == b.id then b else c) }

/-- `boardSchema.methods.isMember`: membership in the members array, or being
the owner (server/models/Board.js). -/
def BoardDoc.isMember (b : BoardDoc) (u : Nat) : Bool :=
  b.members.contains u || b.owner == u

/-- `boardSchema.methods.addActivity`: unshift the new entry, then truncate to
the 50 most recent entries (server/models/Board.js). -/
def BoardDoc.addActivity (b : BoardDoc) (u : Nat) (action details : String) : BoardDoc :=
  let a := { user := u, action := action, details := details : ActivityEntry } :: b.activity
  { b with activity := if a.length > 50 then a.take 50 else a }

/-- `listSchema.methods.removeTask`: filter the task id out of the explicit
tasks array (server/models/List.js). -/
def ListDoc.removeTask (l : ListDoc) (tid : Nat) : ListDoc :=
  { l with tasks := l.tasks.filter (fun x => x != tid) }

/-- The activity record the move handler pushes for a cross-list move
(server/routes/tasks.js, `board.addActivity('moved task', ...)`). -/
def movedRecord (u : Nat) (taskTitle sTitle dTitle : String) : ActivityEntry :=
  { user := u, action := "moved task",
    details := "Moved task \"" ++ taskTitle ++ "\" from \"" ++ sTitle ++
      "\" to \"" ++ dTitle ++ "\"" }

/-- `listSchema.methods.addTask`: append the task id unless already present
(server/models/List.js). -/
def ListDoc.addTask (l : ListDoc) (tid : Nat) : ListDoc :=
  if l.tasks.contains tid then l else { l with tasks := l.tasks ++ [tid] }

/-- JavaScript `array.splice(i, 0, x)` for a non-negative index: insert `x`
at index `i`, clamped to the array length (an index past the end appends). -/
def spliceInsert (xs : List Nat) (i : Nat) (x : Nat) : List Nat :=
  xs.take i ++ x :: xs.drop i

/-- `taskSchema.statics.getNextPosition` (server/models/Task.js): one more
than the maximal `position` among the list's tasks, or 0 if there are none. -/
def getNextPosition (db : DB) (listId : Nat) : Nat :=
  let ps := (db.tasks.filter (fun t => t.list == listId)).map (fun t => t.position)
  if ps.isEmpty then 0 else ps.foldl max 0 + 1

/-- The error responses the ordering handlers produce. -/
inductive ApiError where
  | notFound (msg : String)
  | accessDenied
  | badRequest (msg : String)
deriving Repr, DecidableEq

/-- Payload of the `task-moved` socket event (server/routes/tasks.js): the
moved task id, the two request list ids, the requested position, the board id
and the acting user — and nothing else. -/
structure TaskMovedPayload where
  taskId : Nat
  sourceListId : Nat
  destinationListId : Nat
  newPosition : Nat
  boardId : Nat
  userId : Nat
deriving Repr, DecidableEq

/-- Payload of the `tasks-reordered` socket event (server/routes/tasks.js):
carries the full new ordered id array of the affected list. -/
structure TasksReorderedPayload where
  listId : Nat
  taskIds : List Nat
  boardId : Nat
  userId : Nat
deriving Repr, DecidableEq

/-- Payload of the `lists-reordered` socket event (server/routes/lists.js):
carries the full new ordered id array of the board's lists. -/
structure ListsReorderedPayload where
  boardId : Nat
  listIds : List Nat
  userId : Nat
deriving Repr, DecidableEq

/-- Payload of the `task-created` socket event (server/routes/lists.js);
only the id fields matter for the ordering claims. -/
structure TaskCreatedPayload where
  taskId : Nat
  listId : Nat
  boardId : Nat
  userId : Nat
deriving Repr, DecidableEq

/-- Payload of the `task-deleted` socket event (server/routes/tasks.js). -/
structure TaskDeletedPayload where
  taskId : Nat
  listId : Nat
  boardId : Nat
  userId : Nat
deriving Repr, DecidableEq

/-- A socket event emitted by a handler, tagged with the room (board id) it
is emitted to via `req.io.to(room).emit(...)`. -/
inductive Event where
  | taskMoved (room : Nat) (p : TaskMovedPayload)
  | tasksReordered (room : Nat) (p : TasksReorderedPayload)
  | listsReordered (room : Nat) (p : ListsReorderedPayload)
  | taskCreated (room : Nat) (p : TaskCreatedPayload)
  | taskDeleted (room : Nat) (p : TaskDeletedPayload)
deriving Repr, DecidableEq

/-- The room an event is emitted to. -/
def Event.room : Event → Nat
  | .taskMoved r _ => r
  | .tasksReordered r _ => r
  | .listsReordered r _ => r
  | .taskCreated r _ => r
  | .taskDeleted r _ => r

/-- `PUT /api/tasks/:id/move` (server/routes/tasks.js).  Faithful translation:
the handler looks up the task, checks board membership, looks up both named
lists, filters the task id out of the source document, splices it into the
destination document *as read before the source save*, rewrites the task's
`list` and `position` fields, records an activity entry when the two request
list ids differ, and emits `task-moved` to the board room.  Note what it does
not do: it never checks that the task currently belongs to `sourceListId`,
never checks that the destination list belongs to the same board, and never
renumbers the positions of any other task.  `newPosition` is validated by the
route to be a non-negative integer, hence the `Nat` parameter. -/
def moveTask (db : DB) (userId taskId sourceListId destinationListId newPosition : Nat) :
    Except ApiError (DB × Event) :=
  match db.findTask taskId with
  | none => .error (.notFound "Task not found")
  | some task =>
    match db.findBoard task.board with
    | none => .error .accessDenied
    | some board =>
      if !board.isMember userId then .error .accessDenied
      else
        match db.findList sourceListId, db.findList destinationListId with
        | some sourceList, some destinationList =>
          -- sourceList.removeTask(task._id); await sourceList.save();
          let db1 := db.saveList (sourceList.removeTask taskId)
          -- destinationList.tasks.splice(newPosition, 0, task._id); save
          -- (destinationList was fetched before the source save)
          let db2 := db1.saveList
            { destinationList with
                tasks := spliceInsert destinationList.tasks newPosition taskId }
          -- task.list = destinationListId; task.position = newPosition; save
          let db3 := db2.saveTask
            { task with list := destinationListId, position := newPosition }
          -- if (sourceListId !== destinationListId) board.addActivity(...)
          let db4 :=
            if sourceListId != destinationListId then
              db3.saveBoard (board.addActivity userId "moved task"
                ("Moved task \"" ++ task.title ++ "\" from \"" ++ sourceList.title ++
                  "\" to \"" ++ destinationList.title ++ "\""))
            else db3
          .ok (db4, .taskMoved task.board
            { taskId := taskId, sourceListId := sourceListId,
              destinationListId := destinationListId, newPosition := newPosition,
              boardId := task.board, userId := userId })
        | _, _ => .error (.notFound "List not found")

/-- Pair each element of a list with its index, starting at `k`: the shape of
`array.map((x, index) => ...)`. -/
def withIdx (k : Nat) : List Nat → List (Nat × Nat)
  | [] => []
  | x :: xs => (k, x) :: withIdx (k + 1) xs

/-- `Task.findByIdAndUpdate(taskId, { position: index })`: set the position
field of the task with the given id (a no-op when no such task exists). -/
def setTaskPos (db : DB) (idx tid : Nat) : DB :=
  { db with tasks := db.tasks.map (fun t => if t.id == tid then { t with position := idx } else t) }

/-- `List.findByIdAndUpdate(listId, { position: index })`. -/
def setListPos (db : DB) (idx lid : Nat) : DB :=
  { db with lists := db.lists.map (fun l => if l.id == lid then { l with position := idx } else l) }

/-- `PUT /api/tasks/reorder` (server/routes/tasks.js).  Looks up the list,
checks board membership, verifies that the number of stored tasks whose id is
in `taskIds` and whose `list` field equals `listId` equals the length of
`taskIds` (`Task.find({ _id: { $in: taskIds }, list: listId })`), then sets
each named task's `position` to its index in the array, overwrites the list's
explicit `tasks` array with `taskIds`, and emits `tasks-reordered`. -/
def reorderTasks (db : DB) (userId listId : Nat) (taskIds : List Nat) :
    Except ApiError (DB × Event) :=
  match db.findList listId with
  | none => .error (.notFound "List not found")
  | some list =>
    match db.findBoard list.board with
    | none => .error .accessDenied
    | some board =>
      if !board.isMember userId then .error .accessDenied
      else
        if (db.tasks.filter (fun t => taskIds.contains t.id && t.list == listId)).length
            != taskIds.length then
          .error (.badRequest "Some tasks do not exist or do not belong to this list")
        else
          let db1 := (withIdx 0 taskIds).foldl (fun d p => setTaskPos d p.1 p.2) db
          let db2 := db1.saveList { list with tasks := taskIds }
          .ok (db2, .tasksReordered list.board
            { listId := listId, taskIds := taskIds, boardId := list.board, userId := userId })

/-- `PUT /api/lists/reorder` (server/routes/lists.js).  Checks that the caller
is a member of the named board, then sets each named list's `position` to its
index in `listIds` — with no check that those lists belong to the board — and
emits `lists-reordered`.  Nothing else is written: the board document and the
task collection are untouched. -/
def reorderLists (db : DB) (userId boardId : Nat) (listIds : List Nat) :
    Except ApiError (DB × Event) :=
  match db.findBoard boardId with
  | none => .error .accessDenied
  | some board =>
    if !board.isMember userId then .error .accessDenied
    else
      let db1 := (withIdx 0 listIds).foldl (fun d p => setListPos d p.1 p.2) db
      .ok (db1, .listsReordered boardId
        { boardId := boardId, listIds := listIds, userId := userId })

/-- `POST /api/lists/:id/tasks` (server/routes/lists.js).  Creates a task at
`getNextPosition`, appends its id to the list's tasks array via `addTask`,
records an activity entry and emits `task-created`.  The fresh Mongo id is a
parameter. -/
def createTask (db : DB) (userId listId newTaskId : Nat) (title : String) :
    Except ApiError (DB × Event) :=
  match db.findList listId with
  | none => .error (.notFound "List not found")
  | some list =>
    match db.findBoard list.board with
    | none => .error .accessDenied
    | some board =>
      if !board.isMember userId then .error .accessDenied
      else
        let position := getNextPosition db listId
        let task : TaskDoc :=
          { id := newTaskId, title := title, list := list.id, board := list.board,
            position := position }
        let db1 := { db with tasks := db.tasks ++ [task] }
        let db2 := db1.saveList (list.addTask task.id)
        let db3 := db2.saveBoard (board.addActivity userId "created task"
          ("Created task \"" ++ title ++ "\" in list \"" ++ list.title ++ "\""))
        .ok (db3, .taskCreated list.board
          { taskId := task.id, listId := list.id, boardId := list.board, userId := userId })

/-- `DELETE /api/tasks/:id` (server/routes/tasks.js).  Looks up the task,
checks board membership, removes the task id from the array of the list named
by the task's `list` field (when that list exists), records an activity entry,
and deletes the task document. -/
def deleteTask (db : DB) (userId taskId : Nat) : Except ApiError (DB × Event) :=
  match db.findTask taskId with
  | none => .error (.notFound "Task not found")
  | some task =>
    match db.findBoard task.board with
    | none => .error .accessDenied
    | some board =>
      if !board.isMember userId then .error .accessDenied
      else
        let db1 :=
          match db.findList task.list with
          | some list => db.saveList (list.removeTask taskId)
          | none => db
        let db2 := db1.saveBoard (board.addActivity userId "deleted task"
          ("Deleted task \"" ++ task.title ++ "\""))
        let db3 := { db2 with tasks := db2.tasks.filter (fun t => t.id != taskId) }
        .ok (db3, .taskDeleted task.board
          { taskId := taskId, listId := task.list, boardId := task.board, userId := userId })

/-- One public task-collection request, as named by the spec's reachability
claims: create, reorder, move, delete. -/
inductive Op where
  | create (userId listId newTaskId : Nat) (title : String)
  | reorder (userId listId : Nat) (taskIds : List Nat)
  | move (userId taskId sourceListId destinationListId newPosition : Nat)
  | delete (userId taskId : Nat)
deriving Repr, DecidableEq

/-- Apply one request to the store: a failed request leaves the store
unchanged (every error exit in the handlers happens before the first write). -/
def applyOp (db : DB) : Op → DB
  | .create u l t s =>
    match createTask db u l t s with
    | .ok (d, _) => d
    | .error _ => db
  | .reorder u l ts =>
    match reorderTasks db u l ts with
    | .ok (d, _) => d
    | .error _ => db
  | .move u t s d p =>
    match moveTask db u t s d p with
    | .ok (d', _) => d'
    | .error _ => db
  | .delete u t =>
    match deleteTask db u t with
    | .ok (d, _) => d
    | .error _ => db

/-- Apply a sequence of requests. -/
def applyOps (db : DB) (ops : List Op) : DB :=
  ops.foldl applyOp db

/-- Stable insertion into a position-sorted run: the new document goes in
front of the first document whose position is not smaller. -/
def insertByPos (t : TaskDoc) : List TaskDoc → List TaskDoc
  | [] => [t]
  | u :: us => if t.position ≤ u.position then t :: u :: us else u :: insertByPos t us

/-- Stable sort of task documents by ascending `position` (ties keep their
relative order, the "stable secondary key" of the spec). -/
def sortByPos : List TaskDoc → List TaskDoc
  | [] => []
  | t :: ts => insertByPos t (sortByPos ts)

/-- The task documents behind an array of task ids, in array order. -/
def tasksOfIds (db : DB) (tids : List Nat) : List TaskDoc :=
  tids.filterMap (fun tid => db.findTask tid)

/-- The canonical order derived from positions: the ids of the list's task
documents, stably sorted by ascending `position`. -/
def sortedTaskIds (db : DB) (l : ListDoc) : List Nat :=
  (sortByPos (tasksOfIds db l.tasks)).map (fun t => t.id)

/-- The spec's §8 order invariant, stated for a whole store: every list's
position-sorted task order equals its stored explicit array. -/
def OrderInvariant (db : DB) : Prop :=
  ∀ l ∈ db.lists, sortedTaskIds db l = l.tasks

instance (db : DB) : Decidable (OrderInvariant db) := by
  unfold OrderInvariant; infer_instance

/-- socket.io `io.to(room).emit(...)`, reaching routes as `req.io` through the
middleware in server/index.js: delivers to every session in the room — the
server handle carries no originating socket, so nobody is excluded. -/
def ioTo (rooms : Nat → List Nat) (room : Nat) : List Nat :=
  rooms room

/-- socket.io `socket.to(room).emit(...)` as used by the relay handlers in
server/index.js: delivers to every session in the room except the sending
socket itself. -/
def socketTo (rooms : Nat → List Nat) (room : Nat) (sender : Nat) : List Nat :=
  (rooms room).filter (fun s => s != sender)

/-- The sessions that receive a route-emitted event: all route handlers emit
through `req.io.to(boardRoom)`, i.e. `ioTo`. -/
def deliveredTo (rooms : Nat → List Nat) (e : Event) : List Nat :=
  ioTo rooms e.room

/-- Index of the first occurrence of `a` in the list (length if absent). -/
def idxOf : List Nat → Nat → Nat
  | [], _ => 0
  | x :: xs, a => if x = a then 0 else idxOf xs a + 1

/-- Referential integrity of task placement: document ids are unique in each
collection, every task's id appears in a list's explicit array exactly when
that list is the one named by the task's `list` field, every task's named
list exists, and every id stored in a list's array is a live task. -/
def TaskPlacement (db : DB) : Prop :=
  (db.tasks.map TaskDoc.id).Nodup ∧
  (db.lists.map ListDoc.id).Nodup ∧
  (∀ t ∈ db.tasks, ∀ l ∈ db.lists, (t.id ∈ l.tasks ↔ l.id = t.list)) ∧
  (∀ t ∈ db.tasks, ∃ l ∈ db.lists, l.id = t.list) ∧
  (∀ l ∈ db.lists, ∀ x ∈ l.tasks, ∃ t ∈ db.tasks, t.id = x)

instance (db : DB) : Decidable (TaskPlacement db) := by
  unfold TaskPlacement; infer_instance

/-- A well-formed request: a create supplies a fresh id (Mongo generates
ids), a reorder supplies a permutation of the list's stored array, and a move
names the task's actual current list as source. -/
def GoodOp (db : DB) : Op → Prop
  | .create _ _ newTaskId _ => ∀ t ∈ db.tasks, t.id ≠ newTaskId
  | .reorder _ listId taskIds => ∀ l ∈ db.lists, l.id = listId → taskIds.Perm l.tasks
  | .move _ taskId sourceListId _ _ => ∀ t ∈ db.tasks, t.id = taskId → t.list = sourceListId
  | .delete _ _ => True

/-- States reachable through well-formed public task requests. -/
inductive ReachableVia : DB → DB → Prop where
  | refl (db : DB) : ReachableVia db db
  | step {db0 db db' : DB} {op : Op} :
      ReachableVia db0 db → GoodOp db op → applyOp db op = db' → ReachableVia db0 db'

/-- Example board: board 1 owned by user 9 with no extra members. -/
def exBoard : BoardDoc :=
  { id := 1, owner := 9, members := [], lists := [10, 11, 12], activity := [] }

/-- Example store for the wrong-source move: task 100 lives in list 10, lists
11 and 12 are empty. -/
def dbWrongSource : DB :=
  { tasks := [{ id := 100, title := "A", list := 10, board := 1, position := 0 }],
    lists := [{ id := 10, title := "Todo", board := 1, tasks := [100], position := 0 },
              { id := 11, title := "Doing", board := 1, tasks := [], position := 1 },
              { id := 12, title := "Done", board := 1, tasks := [], position := 2 }],
    boards := [exBoard] }

/-- Example store for the cross-board move: task 100 lives in list 10 of
board 1; list 20 belongs to board 2. -/
def dbCrossBoard : DB :=
  { tasks := [{ id := 100, title := "A", list := 10, board := 1, position := 0 }],
    lists := [{ id := 10, title := "Todo", board := 1, tasks := [100], position := 0 },
              { id := 20, title := "Other", board := 2, tasks := [], position := 0 }],
    boards := [exBoard, { id := 2, owner := 8, members := [], lists := [20], activity := [] }] }

/-- Empty two-list board, the base state for the reachability claims. -/
def dbEmptyBoard : DB :=
  { tasks := [],
    lists := [{ id := 10, title := "Todo", board := 1, tasks := [], position := 0 },
              { id := 11, title := "Doing", board := 1, tasks := [], position := 1 }],
    boards := [exBoard] }

/-- Create A, B in Todo and C in Doing, then move B and A into Doing at
indexes 0 and 1: every request names the task's true source list. -/
def opsInterleave : List Op :=
  [ .create 9 10 100 "A", .create 9 10 101 "B", .create 9 11 102 "C",
    .move 9 101 10 11 0, .move 9 100 10 11 1 ]

/-- Create a task in Todo, then move it naming Doing as both source and
destination: the wrong-source request that duplicates its placement. -/
def opsWrongSourceMove : List Op :=
  [ .create 9 10 100 "A", .move 9 100 11 11 0 ]

/-- Create a task in Todo, then reorder Todo with an empty id array: the
validation accepts it and the task vanishes from every list. -/
def opsEmptyReorder : List Op :=
  [ .create 9 10 100 "A", .reorder 9 10 [] ]

/-- Scenario 2 of the spec: Todo = [A, B] (positions 0, 1),
Doing = [C] (position 0). -/
def dbScenario2 : DB :=
  { tasks := [{ id := 100, title := "A", list := 10, board := 1, position := 0 },
              { id := 101, title := "B", list := 10, board := 1, position := 1 },
              { id := 102, title := "C", list := 11, board := 1, position := 0 }],
    lists := [{ id := 10, title := "Todo", board := 1, tasks := [100, 101], position := 0 },
              { id := 11, title := "Doing", board := 1, tasks := [102], position := 1 }],
    boards := [exBoard] }

/-- Scenario 1 of the spec: Backlog = [X, Y, Z] with positions 0, 1, 2. -/
def dbScenario1 : DB :=
  { tasks := [{ id := 100, title := "X", list := 10, board := 1, position := 0 },
              { id := 101, title := "Y", list := 10, board := 1, position := 1 },
              { id := 102, title := "Z", list := 10, board := 1, position := 2 }],
    lists := [{ id := 10, title := "Backlog", board := 1, tasks := [100, 101, 102], position := 0 }],
    boards := [exBoard] }

/-- Variant of `dbWrongSource` whose Doing list already holds task 102: moving
task 100 into Doing produces a different order than from `dbWrongSource`
while the emitted `task-moved` payload is identical. -/
def dbDoingFull : DB :=
  { tasks := [{ id := 100, title := "A", list := 10, board := 1, position := 0 },
              { id := 102, title := "C", list := 11, board := 1, position := 0 }],
    lists := [{ id := 10, title := "Todo", board := 1, tasks := [100], position := 0 },
              { id := 11, title := "Doing", board := 1, tasks := [102], position := 1 },
              { id := 12, title := "Done", board := 1, tasks := [], position := 2 }],
    boards := [exBoard] }

/-- Example broadcast-group registry: sessions 7 and 8 are viewing board 1;
session 7 belongs to the user who issues the requests. -/
def exRooms : Nat → List Nat :=
  fun r => if r = 1 then [7, 8] else []

/-! ### Generic store lemmas -/

theorem find?_key_eq {α : Type} (key : α → Nat) {xs : List α} {i : Nat} {v : α}
    (h : xs.find? (fun x => key x == i) = some v) : key v = i := by
  have := List.find?_some h
  simpa using this

theorem find?_map_of_key {α : Type} (key : α → Nat) (F : α → α)
    (hF : ∀ x, key (F x) = key x) (xs : List α) (j : Nat) :
    (xs.map F).find? (fun x => key x == j) = (xs.find? (fun x => key x == j)).map F := by
  rw [List.find?_map]
  have hfe : ((fun x => key x == j) ∘ F) = (fun x => key x == j) := by
    funext x
    simp [Function.comp, hF]
  rw [hfe]

theorem find?_key_unique {α : Type} (key : α → Nat) {xs : List α}
    (hN : (xs.map key).Nodup) {i : Nat} {v y : α}
    (h : xs.find? (fun x => key x == i) = some v) (hy : y ∈ xs) (hky : key y = i) : y = v := by
  induction xs with
  | nil => cases hy
  | cons a as ih =>
    rw [List.map_cons, List.nodup_cons] at hN
    by_cases hpa : key a = i
    · have hfind : (a :: as).find? (fun x => key x == i) = some a := by
        simp [List.find?_cons, hpa]
      rw [hfind] at h
      cases h
      rcases List.mem_cons.mp hy with rfl | hmem
      · rfl
      · exact absurd (by rw [hpa, ← hky]; exact List.mem_map_of_mem key hmem) hN.1
    · have hfind : (a :: as).find? (fun x => key x == i) = as.find? (fun x => key x == i) := by
        simp [List.find?_cons, hpa]
      rw [hfind] at h
      rcases List.mem_cons.mp hy with rfl | hmem
      · exact absurd hky hpa
      · exact ih hN.2 h hmem

theorem find?_key_of_mem {α : Type} (key : α → Nat) {xs : List α}
    (hN : (xs.map key).Nodup) {y : α} (hy : y ∈ xs) :
    xs.find? (fun x => key x == key y) = some y := by
  have hsome : (xs.find? (fun x => key x == key y)).isSome = true :=
    List.find?_isSome.mpr ⟨y, hy, by simp⟩
  rcases Option.isSome_iff_exists.mp hsome with ⟨v, hv⟩
  rw [hv]
  exact congrArg some (find?_key_unique key hN hv hy rfl).symm

theorem mem_spliceInsert {xs : List Nat} {i x y : Nat} :
    y ∈ spliceInsert xs i x ↔ y ∈ xs ∨ y = x := by
  unfold spliceInsert
  constructor
  · intro h
    rcases List.mem_append.mp h with h | h
    · exact Or.inl (List.mem_of_mem_take h)
    · rcases List.mem_cons.mp h with rfl | h
      · exact Or.inr rfl
      · exact Or.inl (List.mem_of_mem_drop h)
  · intro h
    rcases h with h | rfl
    · conv at h => rw [← List.take_append_drop i xs]
      rcases List.mem_append.mp h with h | h
      · exact List.mem_append.mpr (Or.inl h)
      · exact List.mem_append.mpr (Or.inr (List.mem_cons_of_mem x h))
    · exact List.mem_append.mpr (Or.inr (List.mem_cons_self y _))

theorem addActivity_activity (b : BoardDoc) (u : Nat) (a d : String) :
    (b.addActivity u a d).activity =
      ({ user := u, action := a, details := d : ActivityEntry } :: b.activity).take 50 := by
  unfold BoardDoc.addActivity
  by_cases h : ({ user := u, action := a, details := d : ActivityEntry } :: b.activity).length > 50
  · simp only [h, if_pos]
  · simp only [h, if_neg, not_false_iff]
    rw [List.take_of_length_le (by omega)]

theorem addActivity_id (b : BoardDoc) (u : Nat) (a d : String) :
    (b.addActivity u a d).id = b.id := rfl

/-! ### Forward characterization of the move handler -/

theorem moveTask_spec (db : DB) (u tid src dst pos : Nat)
    {task : TaskDoc} {board : BoardDoc} {S D : ListDoc}
    (hT : db.findTask tid = some task) (hB : db.findBoard task.board = some board)
    (hM : board.isMember u = true)
    (hS : db.findList src = some S) (hD : db.findList dst = some D) :
    moveTask db u tid src dst pos =
      .ok
        ((((db.saveList (S.removeTask tid)).saveList
              { D with tasks := spliceInsert D.tasks pos tid }).saveTask
              { task with list := dst, position := pos } |>
            (fun db3 => if src != dst then
                db3.saveBoard (board.addActivity u "moved task"
                  ("Moved task \"" ++ task.title ++ "\" from \"" ++ S.title ++
                    "\" to \"" ++ D.title ++ "\""))
              else db3)),
         .taskMoved task.board
           { taskId := tid, sourceListId := src, destinationListId := dst,
             newPosition := pos, boardId := task.board, userId := u }) := by
  simp only [moveTask, hT, hB, hS, hD, hM, Bool.not_true, Bool.false_eq_true, if_false]

theorem saveTask_findTask (db : DB) (v : TaskDoc) (j : Nat) :
    (db.saveTask v).findTask j = (db.findTask j).map (fun t => if t.id == v.id then v else t) := by
  unfold DB.saveTask DB.findTask
  exact find?_map_of_key TaskDoc.id _
    (fun t => by by_cases h : (t.id == v.id) = true <;> simp_all) db.tasks j

theorem saveList_findList (db : DB) (l : ListDoc) (j : Nat) :
    (db.saveList l).findList j = (db.findList j).map (fun m => if m.id == l.id then l else m) := by
  unfold DB.saveList DB.findList
  exact find?_map_of_key ListDoc.id _
    (fun m => by by_cases h : (m.id == l.id) = true <;> simp_all) db.lists j

theorem saveBoard_findBoard (db : DB) (b : BoardDoc) (j : Nat) :
    (db.saveBoard b).findBoard j = (db.findBoard j).map (fun c => if c.id == b.id then b else c) := by
  unfold DB.saveBoard DB.findBoard
  exact find?_map_of_key BoardDoc.id _
    (fun c => by by_cases h : (c.id == b.id) = true <;> simp_all) db.boards j

/-- The task collection after a successful move: the moved task's document is
rewritten to point at the destination list with the requested position; every
other task document — in particular every `position` field — is untouched.
No renumbering happens. -/
theorem moveTask_findTask_after (db : DB) (u tid src dst pos : Nat)
    {task : TaskDoc} {board : BoardDoc} {S D : ListDoc}
    (hT : db.findTask tid = some task) (hB : db.findBoard task.board = some board)
    (hM : board.isMember u = true)
    (hS : db.findList src = some S) (hD : db.findList dst = some D) (j : Nat) :
    (moveTask db u tid src dst pos).map (fun r => r.1.findTask j) =
      .ok ((db.findTask j).map
        (fun t => if t.id == tid then { task with list := dst, position := pos } else t)) := by
  rw [moveTask_spec db u tid src dst pos hT hB hM hS hD]
  have htid : task.id = tid := find?_key_eq TaskDoc.id hT
  have hfinal : ∀ dbq : DB, ∀ brq : BoardDoc,
      (if (src != dst) = true then dbq.saveBoard brq else dbq).findTask j = dbq.findTask j := by
    intro dbq brq
    split <;> rfl
  simp only [Except.map, hfinal, saveTask_findTask]
  have : ((db.saveList (S.removeTask tid)).saveList
      { D with tasks := spliceInsert D.tasks pos tid }).findTask j = db.findTask j := rfl
  rw [this, htid]

/-- The list collection after a successful move, seen through `findById`: the
destination document (as read before the source save) gets the task id
spliced in at the clamped position, the source document gets the task id
filtered out, and every other list is untouched. -/
theorem moveTask_findList_after (db : DB) (u tid src dst pos : Nat)
    {task : TaskDoc} {board : BoardDoc} {S D : ListDoc}
    (hT : db.findTask tid = some task) (hB : db.findBoard task.board = some board)
    (hM : board.isMember u = true)
    (hS : db.findList src = some S) (hD : db.findList dst = some D) (j : Nat) :
    (moveTask db u tid src dst pos).map (fun r => r.1.findList j) =
      .ok ((db.findList j).map (fun m =>
        if m.id == dst then { D with tasks := spliceInsert D.tasks pos tid }
        else if m.id == src then S.removeTask tid else m)) := by
  rw [moveTask_spec db u tid src dst pos hT hB hM hS hD]
  have hSid : S.id = src := find?_key_eq ListDoc.id hS
  have hDid : D.id = dst := find?_key_eq ListDoc.id hD
  have hfinal : ∀ dbq : DB, ∀ brq : BoardDoc,
      (if (src != dst) = true then dbq.saveBoard brq else dbq).findList j = dbq.findList j := by
    intro dbq brq
    split <;> rfl
  simp only [Except.map, hfinal]
  have hsavetask : ∀ dbq : DB, ∀ v : TaskDoc, (dbq.saveTask v).findList j = dbq.findList j := by
    intro dbq v
    rfl
  rw [hsavetask, saveList_findList, saveList_findList]
  cases hj : db.findList j with
  | none => rfl
  | some m =>
    have hA : (S.removeTask tid).id = S.id := rfl
    by_cases hm : m.id = src
    · by_cases h3 : src = dst
      · simp [hA, hSid, hDid, hm, h3]
      · simp [hA, hSid, hDid, hm, h3]
    · by_cases h4 : m.id = dst
      · have h5 : ¬ dst = src := by rw [← h4]; exact hm
        simp [hA, hSid, hDid, h4, h5]
      · simp [hA, hSid, hDid, hm, h4]

/-- The emitted event of a successful move: `task-moved` to the board room,
with the delta payload. -/
theorem moveTask_event (db : DB) (u tid src dst pos : Nat)
    {task : TaskDoc} {board : BoardDoc} {S D : ListDoc}
    (hT : db.findTask tid = some task) (hB : db.findBoard task.board = some board)
    (hM : board.isMember u = true)
    (hS : db.findList src = some S) (hD : db.findList dst = some D) :
    (moveTask db u tid src dst pos).map (fun r => r.2) =
      .ok (.taskMoved task.board
        { taskId := tid, sourceListId := src, destinationListId := dst,
          newPosition := pos, boardId := task.board, userId := u }) := by
  rw [moveTask_spec db u tid src dst pos hT hB hM hS hD]
  rfl

/-- The activity log after a move request: when the two request list ids
differ, one record is pushed to the front and the log truncated to 50; when
they are equal the log is untouched. -/
theorem moveTask_activity_after (db : DB) (u tid src dst pos : Nat)
    {task : TaskDoc} {board : BoardDoc} {S D : ListDoc}
    (hT : db.findTask tid = some task) (hB : db.findBoard task.board = some board)
    (hM : board.isMember u = true)
    (hS : db.findList src = some S) (hD : db.findList dst = some D) :
    (moveTask db u tid src dst pos).map (fun r => (r.1.findBoard task.board).map BoardDoc.activity) =
      .ok (some (if src ≠ dst then
          ({ user := u, action := "moved task",
             details := "Moved task \"" ++ task.title ++ "\" from \"" ++ S.title ++
               "\" to \"" ++ D.title ++ "\"" : ActivityEntry } :: board.activity).take 50
        else board.activity)) := by
  rw [moveTask_spec db u tid src dst pos hT hB hM hS hD]
  have hbb : (((db.saveList (S.removeTask tid)).saveList
      { D with tasks := spliceInsert D.tasks pos tid }).saveTask
      { task with list := dst, position := pos }).findBoard task.board = some board := hB
  by_cases hsd : src = dst
  · simp [Except.map, hsd, hbb]
  · have hbne : (src != dst) = true := by simp [hsd]
    simp only [Except.map, hbne, if_pos, saveBoard_findBoard, hbb]
    rw [if_pos hsd]
    simp [addActivity_id, addActivity_activity]

/-! ### Characterization of the bulk position updates -/

theorem foldl_setTaskPos (ids : List Nat) (k : Nat) (db : DB) (hN : ids.Nodup) :
    (withIdx k ids).foldl (fun d p => setTaskPos d p.1 p.2) db =
      { db with tasks := db.tasks.map (fun t =>
          if t.id ∈ ids then { t with position := k + idxOf ids t.id } else t) } := by
  induction ids generalizing k db with
  | nil => simp [withIdx]
  | cons x xs ih =>
    rw [List.nodup_cons] at hN
    rw [withIdx, List.foldl_cons, ih (k + 1) _ hN.2]
    have hfields : ∀ ts1 ts2 : List TaskDoc, ts1 = ts2 →
        ({ setTaskPos db k x with tasks := ts1 } : DB) = { db with tasks := ts2 } := by
      intro ts1 ts2 h
      cases h
      rfl
    apply hfields
    have hstep : (setTaskPos db k x).tasks =
        db.tasks.map (fun t => if t.id == x then { t with position := k } else t) := rfl
    rw [hstep, List.map_map]
    apply List.map_congr_left
    intro t _
    by_cases h1 : t.id = x
    · have hx : x ∉ xs := hN.1
      simp [Function.comp, h1, hx, idxOf]
    · have h1' : ¬ x = t.id := fun hh => h1 hh.symm
      by_cases h2 : t.id ∈ xs
      · have harith : k + 1 + idxOf xs t.id = k + (idxOf xs t.id + 1) := by omega
        simp [Function.comp, h1, h1', h2, idxOf, harith]
      · simp [Function.comp, h1, h1', h2]

theorem foldl_setListPos (ids : List Nat) (k : Nat) (db : DB) (hN : ids.Nodup) :
    (withIdx k ids).foldl (fun d p => setListPos d p.1 p.2) db =
      { db with lists := db.lists.map (fun l =>
          if l.id ∈ ids then { l with position := k + idxOf ids l.id } else l) } := by
  induction ids generalizing k db with
  | nil => simp [withIdx]
  | cons x xs ih =>
    rw [List.nodup_cons] at hN
    rw [withIdx, List.foldl_cons, ih (k + 1) _ hN.2]
    have hfields : ∀ ls1 ls2 : List ListDoc, ls1 = ls2 →
        ({ setListPos db k x with lists := ls1 } : DB) = { db with lists := ls2 } := by
      intro ls1 ls2 h
      cases h
      rfl
    apply hfields
    have hstep : (setListPos db k x).lists =
        db.lists.map (fun l => if l.id == x then { l with position := k } else l) := rfl
    rw [hstep, List.map_map]
    apply List.map_congr_left
    intro l _
    by_cases h1 : l.id = x
    · have hx : x ∉ xs := hN.1
      simp [Function.comp, h1, hx, idxOf]
    · have h1' : ¬ x = l.id := fun hh => h1 hh.symm
      by_cases h2 : l.id ∈ xs
      · have harith : k + 1 + idxOf xs l.id = k + (idxOf xs l.id + 1) := by omega
        simp [Function.comp, h1, h1', h2, idxOf, harith]
      · simp [Function.comp, h1, h1', h2]

/-! ### Forward characterization of the reorder handlers -/

theorem reorderTasks_spec (db : DB) (u lid : Nat) (tids : List Nat)
    {list : ListDoc} {board : BoardDoc}
    (hL : db.findList lid = some list) (hB : db.findBoard list.board = some board)
    (hM : board.isMember u = true)
    (hV : (db.tasks.filter (fun t => tids.contains t.id && t.list == lid)).length = tids.length) :
    reorderTasks db u lid tids =
      .ok (((withIdx 0 tids).foldl (fun d p => setTaskPos d p.1 p.2) db).saveList
          { list with tasks := tids },
        .tasksReordered list.board
          { listId := lid, taskIds := tids, boardId := list.board, userId := u }) := by
  simp only [reorderTasks, hL, hB, hM, Bool.not_true, Bool.false_eq_true, if_false, hV,
    bne_self_eq_false]

theorem reorderLists_spec (db : DB) (u bid : Nat) (ids : List Nat)
    {board : BoardDoc} (hB : db.findBoard bid = some board) (hM : board.isMember u = true) :
    reorderLists db u bid ids =
      .ok ((withIdx 0 ids).foldl (fun d p => setListPos d p.1 p.2) db,
        .listsReordered bid { boardId := bid, listIds := ids, userId := u }) := by
  simp only [reorderLists, hB, hM, Bool.not_true, Bool.false_eq_true, if_false]

/-- What a passing reorder validation implies when stored task ids are
unique: the submitted ids are pairwise distinct, and every one of them names
a stored task whose `list` field is the reordered list. -/
theorem validation_facts (db : DB) (lid : Nat) (tids : List Nat)
    (hN : (db.tasks.map TaskDoc.id).Nodup)
    (hV : (db.tasks.filter (fun t => tids.contains t.id && t.list == lid)).length = tids.length) :
    tids.Nodup ∧ ∀ tid ∈ tids, ∃ t ∈ db.tasks, t.id = tid ∧ t.list = lid := by
  set F := db.tasks.filter (fun t => tids.contains t.id && t.list == lid) with hF
  have hsub : List.Sublist F db.tasks := List.filter_sublist _
  have hFN : (F.map TaskDoc.id).Nodup := (hsub.map TaskDoc.id).nodup hN
  have hmem : ∀ a ∈ F.map TaskDoc.id, a ∈ tids := by
    intro a ha
    rcases List.mem_map.mp ha with ⟨t, htF, rfl⟩
    have hp := List.of_mem_filter htF
    have := (Bool.and_eq_true _ _).mp hp
    simpa using this.1
  have hsubF : (F.map TaskDoc.id).toFinset ⊆ tids.toFinset := by
    intro a ha
    exact List.mem_toFinset.mpr (hmem a (List.mem_toFinset.mp ha))
  have c1 : (F.map TaskDoc.id).toFinset.card = F.length := by
    rw [List.toFinset_card_of_nodup hFN, List.length_map]
  have c2 : tids.toFinset.card ≤ tids.length := List.toFinset_card_le tids
  have c3 : (F.map TaskDoc.id).toFinset.card ≤ tids.toFinset.card := Finset.card_le_card hsubF
  have hlen : F.length = tids.length := hV
  have heq : tids.toFinset.card = tids.length := by omega
  have hnodup : tids.Nodup := by
    rw [List.card_toFinset] at heq
    have hded : tids.dedup = tids := (List.dedup_sublist tids).eq_of_length heq
    exact List.dedup_eq_self.mp hded
  have hset : (F.map TaskDoc.id).toFinset = tids.toFinset :=
    Finset.eq_of_subset_of_card_le hsubF (by omega)
  refine ⟨hnodup, ?_⟩
  intro tid htid
  have : tid ∈ (F.map TaskDoc.id).toFinset := by
    rw [hset]
    exact List.mem_toFinset.mpr htid
  rcases List.mem_map.mp (List.mem_toFinset.mp this) with ⟨t, htF, rfl⟩
  have hmemdb : t ∈ db.tasks := hsub.subset htF
  have hp := List.of_mem_filter htF
  have hand := (Bool.and_eq_true _ _).mp hp
  refine ⟨t, hmemdb, rfl, ?_⟩
  simpa using hand.2

/-! ### Index and stable-sort lemmas -/

theorem idxOf_cons_self (a : Nat) (l : List Nat) : idxOf (a :: l) a = 0 := by
  simp [idxOf]

theorem idxOf_cons_ne (x a : Nat) (l : List Nat) (h : ¬ x = a) :
    idxOf (x :: l) a = idxOf l a + 1 := by
  simp [idxOf, h]

theorem map_idxOf_range {ids : List Nat} (h : ids.Nodup) :
    ids.map (idxOf ids) = List.range ids.length := by
  induction ids with
  | nil => rfl
  | cons x xs ih =>
    rw [List.nodup_cons] at h
    have hpt : ∀ a ∈ xs, idxOf (x :: xs) a = Nat.succ (idxOf xs a) := by
      intro a ha
      have hxa : ¬ x = a := fun hh => h.1 (hh ▸ ha)
      simp [idxOf, hxa]
    calc (x :: xs).map (idxOf (x :: xs))
        = idxOf (x :: xs) x :: xs.map (idxOf (x :: xs)) := rfl
      _ = 0 :: xs.map (fun a => Nat.succ (idxOf xs a)) := by
          rw [idxOf_cons_self]
          congr 1
          exact List.map_congr_left hpt
      _ = 0 :: (xs.map (idxOf xs)).map Nat.succ := by rw [List.map_map]; rfl
      _ = 0 :: (List.range xs.length).map Nat.succ := by rw [ih h.2]
      _ = List.range (xs.length + 1) := (List.range_succ_eq_map xs.length).symm

theorem pairwise_idxOf_lt {ids : List Nat} (h : ids.Nodup) :
    ids.Pairwise (fun a b => idxOf ids a < idxOf ids b) := by
  induction ids with
  | nil => exact List.Pairwise.nil
  | cons x xs ih =>
    rw [List.nodup_cons] at h
    refine List.Pairwise.cons ?_ ?_
    · intro b hb
      have hxb : ¬ x = b := fun hh => h.1 (hh ▸ hb)
      rw [idxOf_cons_self, idxOf_cons_ne x b xs hxb]
      omega
    · refine List.Pairwise.imp_of_mem ?_ (ih h.2)
      intro a b ha hb hab
      have hxa : ¬ x = a := fun hh => h.1 (hh ▸ ha)
      have hxb : ¬ x = b := fun hh => h.1 (hh ▸ hb)
      rw [idxOf_cons_ne x a xs hxa, idxOf_cons_ne x b xs hxb]
      omega

theorem insertByPos_of_le {t : TaskDoc} {ts : List TaskDoc}
    (h : ∀ u ∈ ts, t.position ≤ u.position) : insertByPos t ts = t :: ts := by
  cases ts with
  | nil => rfl
  | cons u us =>
    unfold insertByPos
    rw [if_pos (h u (List.mem_cons_self u us))]

theorem sortByPos_eq_self {ts : List TaskDoc}
    (h : ts.Pairwise (fun a b => a.position ≤ b.position)) : sortByPos ts = ts := by
  induction ts with
  | nil => rfl
  | cons t ts ih =>
    rw [List.pairwise_cons] at h
    unfold sortByPos
    rw [ih h.2, insertByPos_of_le h.1]

theorem filterMap_map_id_of_inv {l : List Nat} {g : Nat → Option TaskDoc}
    (h : ∀ a ∈ l, ∃ y, g a = some y ∧ y.id = a) :
    (l.filterMap g).map TaskDoc.id = l := by
  induction l with
  | nil => rfl
  | cons a as ih =>
    rcases h a (List.mem_cons_self a as) with ⟨y, hy, hid⟩
    simp [List.filterMap_cons, hy, hid, ih (fun b hb => h b (List.mem_cons_of_mem a hb))]

/-! ### Document-method lemmas and handler inversions -/

theorem addTask_id (l : ListDoc) (tid : Nat) : (l.addTask tid).id = l.id := by
  unfold ListDoc.addTask
  split <;> rfl

theorem addTask_tasks_of_fresh {l : ListDoc} {tid : Nat} (h : tid ∉ l.tasks) :
    (l.addTask tid).tasks = l.tasks ++ [tid] := by
  unfold ListDoc.addTask
  rw [if_neg (by simpa using h)]

theorem removeTask_id (l : ListDoc) (tid : Nat) : (l.removeTask tid).id = l.id := rfl

theorem mem_removeTask {l : ListDoc} {tid x : Nat} :
    x ∈ (l.removeTask tid).tasks ↔ x ∈ l.tasks ∧ x ≠ tid := by
  unfold ListDoc.removeTask
  simp [List.mem_filter]

theorem map_key_of_preserving {α : Type} (key : α → Nat) (F : α → α)
    (hF : ∀ x, key (F x) = key x) (xs : List α) :
    (xs.map F).map key = xs.map key := by
  rw [List.map_map]
  apply List.map_congr_left
  intro x _
  exact hF x

theorem createTask_spec (db : DB) (u lid ntid : Nat) (s : String)
    {list : ListDoc} {board : BoardDoc}
    (hL : db.findList lid = some list) (hB : db.findBoard list.board = some board)
    (hM : board.isMember u = true) :
    createTask db u lid ntid s =
      .ok ((({ db with tasks := db.tasks ++
               [{ id := ntid, title := s, list := list.id, board := list.board,
                  position := getNextPosition db lid : TaskDoc }] }).saveList
             (list.addTask ntid)).saveBoard
            (board.addActivity u "created task"
              ("Created task \"" ++ s ++ "\" in list \"" ++ list.title ++ "\"")),
        .taskCreated list.board
          { taskId := ntid, listId := list.id, boardId := list.board, userId := u }) := by
  simp only [createTask, hL, hB, hM, Bool.not_true, Bool.false_eq_true, if_false]

theorem deleteTask_spec (db : DB) (u tid : Nat) {task : TaskDoc} {board : BoardDoc}
    (hT : db.findTask tid = some task) (hB : db.findBoard task.board = some board)
    (hM : board.isMember u = true) :
    deleteTask db u tid =
      .ok ((fun d => { d with tasks := d.tasks.filter (fun t => t.id != tid) })
          ((match db.findList task.list with
            | some list => db.saveList (list.removeTask tid)
            | none => db).saveBoard
            (board.addActivity u "deleted task" ("Deleted task \"" ++ task.title ++ "\""))),
        .taskDeleted task.board
          { taskId := tid, listId := task.list, boardId := task.board, userId := u }) := by
  simp only [deleteTask, hT, hB, hM, Bool.not_true, Bool.false_eq_true, if_false]

theorem createTask_ok_inv {db : DB} {u lid ntid : Nat} {s : String} {r : DB × Event}
    (h : createTask db u lid ntid s = .ok r) :
    ∃ list board, db.findList lid = some list ∧ db.findBoard list.board = some board ∧
      board.isMember u = true := by
  unfold createTask at h
  split at h
  · cases h
  · rename_i list hL
    split at h
    · cases h
    · rename_i board hB
      split at h
      · cases h
      · rename_i hM
        exact ⟨list, board, hL, hB, by simpa using hM⟩

theorem deleteTask_ok_inv {db : DB} {u tid : Nat} {r : DB × Event}
    (h : deleteTask db u tid = .ok r) :
    ∃ task board, db.findTask tid = some task ∧ db.findBoard task.board = some board ∧
      board.isMember u = true := by
  unfold deleteTask at h
  split at h
  · cases h
  · rename_i task hT
    split at h
    · cases h
    · rename_i board hB
      split at h
      · cases h
      · rename_i hM
        exact ⟨task, board, hT, hB, by simpa using hM⟩

theorem moveTask_ok_inv {db : DB} {u tid src dst pos : Nat} {r : DB × Event}
    (h : moveTask db u tid src dst pos = .ok r) :
    ∃ task board S D, db.findTask tid = some task ∧ db.findBoard task.board = some board ∧
      board.isMember u = true ∧ db.findList src = some S ∧ db.findList dst = some D := by
  unfold moveTask at h
  split at h
  · cases h
  · rename_i task hT
    split at h
    · cases h
    · rename_i board hB
      split at h
      · cases h
      · rename_i hM
        split at h
        · rename_i S D hS hD
          exact ⟨task, board, S, D, hT, hB, by simpa using hM, hS, hD⟩
        · cases h

theorem reorderTasks_ok_inv {db : DB} {u lid : Nat} {tids : List Nat} {r : DB × Event}
    (h : reorderTasks db u lid tids = .ok r) :
    ∃ list board, db.findList lid = some list ∧ db.findBoard list.board = some board ∧
      board.isMember u = true ∧
      (db.tasks.filter (fun t => tids.contains t.id && t.list == lid)).length = tids.length := by
  unfold reorderTasks at h
  split at h
  · cases h
  · rename_i list hL
    split at h
    · cases h
    · rename_i board hB
      split at h
      · cases h
      · rename_i hM
        split at h
        · cases h
        · rename_i hV
          exact ⟨list, board, hL, hB, by simpa using hM, by simpa using hV⟩

theorem reorderLists_ok_inv {db : DB} {u bid : Nat} {ids : List Nat} {r : DB × Event}
    (h : reorderLists db u bid ids = .ok r) :
    ∃ board, db.findBoard bid = some board ∧ board.isMember u = true := by
  unfold reorderLists at h
  split at h
  · cases h
  · rename_i board hB
    split at h
    · cases h
    · rename_i hM
      exact ⟨board, hB, by simpa using hM⟩

theorem taskPlacement_of_eq {db1 db2 : DB} (ht : db1.tasks = db2.tasks)
    (hl : db1.lists = db2.lists) (h : TaskPlacement db1) : TaskPlacement db2 := by
  unfold TaskPlacement at h ⊢
  rw [← ht, ← hl]
  exact h

/-! ### Preservation of task placement by well-formed requests -/

theorem placement_create {db : DB} {u lid ntid : Nat} {s : String} {db' : DB} {ev : Event}
    (hInv : TaskPlacement db) (hfresh : ∀ t ∈ db.tasks, t.id ≠ ntid)
    (h : createTask db u lid ntid s = .ok (db', ev)) : TaskPlacement db' := by
  obtain ⟨list, board, hL, hB, hM⟩ := createTask_ok_inv h
  rw [createTask_spec db u lid ntid s hL hB hM] at h
  rw [Except.ok.injEq, Prod.mk.injEq] at h
  obtain ⟨hdb, -⟩ := h
  subst hdb
  obtain ⟨hTN, hLN, hC3, hC4, hC5⟩ := hInv
  have hlid : list.id = lid := find?_key_eq ListDoc.id hL
  have hlmem : list ∈ db.lists := List.mem_of_find?_eq_some hL
  have hfresh2 : ∀ l ∈ db.lists, ntid ∉ l.tasks := by
    intro l hl hx
    rcases hC5 l hl ntid hx with ⟨t, ht, hid⟩
    exact hfresh t ht hid
  have haddid : (list.addTask ntid).id = list.id := addTask_id list ntid
  have haddtasks : (list.addTask ntid).tasks = list.tasks ++ [ntid] :=
    addTask_tasks_of_fresh (hfresh2 list hlmem)
  have hFid : ∀ m : ListDoc,
      (if (m.id == (list.addTask ntid).id) = true then list.addTask ntid else m).id = m.id := by
    intro m
    by_cases hm : (m.id == (list.addTask ntid).id) = true
    · rw [if_pos hm]
      exact (beq_iff_eq.mp hm).symm
    · rw [if_neg hm]
  unfold TaskPlacement
  simp only [DB.saveBoard, DB.saveList]
  refine ⟨?_, ?_, ?_, ?_, ?_⟩
  · -- unique ids in the grown task collection
    rw [List.map_append]
    rw [List.nodup_append]
    refine ⟨hTN, List.nodup_singleton _, ?_⟩
    intro a ha hb
    rcases List.mem_map.mp ha with ⟨t, ht, rfl⟩
    have : t.id = ntid := by simpa using hb
    exact hfresh t ht this
  · -- unique list ids: the map preserves every id
    rw [map_key_of_preserving ListDoc.id _ hFid]
    exact hLN
  · -- membership in a list array matches the list reference
    intro t' ht' l' hl'
    rcases List.mem_map.mp hl' with ⟨m, hm, rfl⟩
    rcases List.mem_append.mp ht' with htold | htnew
    · by_cases hmid : (m.id == (list.addTask ntid).id) = true
      · rw [if_pos hmid]
        rw [haddid, haddtasks, List.mem_append]
        have hne : t'.id ≠ ntid := hfresh t' htold
        constructor
        · rintro (hin | heq)
          · exact (hC3 t' htold list hlmem).mp hin
          · exact absurd (by simpa using heq) hne
        · intro hl
          exact Or.inl ((hC3 t' htold list hlmem).mpr hl)
      · rw [if_neg hmid]
        exact hC3 t' htold m hm
    · obtain rfl := List.mem_singleton.mp htnew
      by_cases hmid : (m.id == (list.addTask ntid).id) = true
      · rw [if_pos hmid]
        rw [haddid, haddtasks]
        simp
      · rw [if_neg hmid]
        have h1 : ntid ∉ m.tasks := hfresh2 m hm
        have h2 : m.id ≠ list.id := by
          intro hh
          apply hmid
          rw [haddid]
          exact beq_iff_eq.mpr hh
        simp [h1, h2]
  · -- every task's named list exists
    intro t' ht'
    rcases List.mem_append.mp ht' with htold | htnew
    · rcases hC4 t' htold with ⟨l, hl, hlid'⟩
      exact ⟨_, List.mem_map_of_mem _ hl, by rw [hFid l]; exact hlid'⟩
    · obtain rfl := List.mem_singleton.mp htnew
      exact ⟨_, List.mem_map_of_mem _ hlmem, by rw [hFid list]⟩
  · -- no stray ids in any list array
    intro l' hl' x hx
    rcases List.mem_map.mp hl' with ⟨m, hm, rfl⟩
    by_cases hmid : (m.id == (list.addTask ntid).id) = true
    · rw [if_pos hmid] at hx
      rw [haddtasks] at hx
      rcases List.mem_append.mp hx with hxi | hxn
      · rcases hC5 list hlmem x hxi with ⟨t, ht, hid⟩
        exact ⟨t, List.mem_append.mpr (Or.inl ht), hid⟩
      · obtain rfl := List.mem_singleton.mp hxn
        exact ⟨_, List.mem_append.mpr (Or.inr (List.mem_singleton.mpr rfl)), rfl⟩
    · rw [if_neg hmid] at hx
      rcases hC5 m hm x hx with ⟨t, ht, hid⟩
      exact ⟨t, List.mem_append.mpr (Or.inl ht), hid⟩

theorem placement_delete {db : DB} {u tid : Nat} {db' : DB} {ev : Event}
    (hInv : TaskPlacement db)
    (h : deleteTask db u tid = .ok (db', ev)) : TaskPlacement db' := by
  obtain ⟨task, board, hT, hB, hM⟩ := deleteTask_ok_inv h
  rw [deleteTask_spec db u tid hT hB hM] at h
  rw [Except.ok.injEq, Prod.mk.injEq] at h
  obtain ⟨hdb, -⟩ := h
  obtain ⟨hTN, hLN, hC3, hC4, hC5⟩ := hInv
  have htid : task.id = tid := find?_key_eq TaskDoc.id hT
  have htmem : task ∈ db.tasks := List.mem_of_find?_eq_some hT
  rcases hC4 task htmem with ⟨l0, hl0mem, hl0id⟩
  have hLsome : (db.findList task.list).isSome = true := by
    unfold DB.findList
    exact List.find?_isSome.mpr ⟨l0, hl0mem, by simp [hl0id]⟩
  rcases Option.isSome_iff_exists.mp hLsome with ⟨list0, hL0⟩
  have hl0id' : list0.id = task.list := find?_key_eq ListDoc.id hL0
  have hl0mem' : list0 ∈ db.lists := List.mem_of_find?_eq_some hL0
  rw [hL0] at hdb
  subst hdb
  have hremid : (list0.removeTask tid).id = list0.id := rfl
  have hFid : ∀ m : ListDoc,
      (if (m.id == (list0.removeTask tid).id) = true then list0.removeTask tid else m).id
        = m.id := by
    intro m
    by_cases hm : (m.id == (list0.removeTask tid).id) = true
    · rw [if_pos hm]
      exact (beq_iff_eq.mp hm).symm
    · rw [if_neg hm]
  unfold TaskPlacement
  simp only [DB.saveBoard, DB.saveList]
  refine ⟨?_, ?_, ?_, ?_, ?_⟩
  · -- task ids stay unique after the filter
    exact ((List.filter_sublist db.tasks).map TaskDoc.id).nodup hTN
  · rw [map_key_of_preserving ListDoc.id _ hFid]
    exact hLN
  · intro t' ht' l' hl'
    rcases List.mem_filter.mp ht' with ⟨htold, hne⟩
    have hne' : t'.id ≠ tid := by simpa using hne
    rcases List.mem_map.mp hl' with ⟨m, hm, rfl⟩
    by_cases hmid : (m.id == (list0.removeTask tid).id) = true
    · rw [if_pos hmid]
      rw [hremid] at hmid
      have hmeq : m.id = list0.id := beq_iff_eq.mp hmid
      constructor
      · intro hin
        rcases mem_removeTask.mp hin with ⟨hin2, -⟩
        rw [hremid, hmeq] at *
        exact (hC3 t' htold list0 hl0mem').mp hin2
      · intro hl
        refine mem_removeTask.mpr ⟨?_, hne'⟩
        rw [hremid] at hl
        exact (hC3 t' htold list0 hl0mem').mpr hl
    · rw [if_neg hmid]
      exact hC3 t' htold m hm
  · intro t' ht'
    rcases List.mem_filter.mp ht' with ⟨htold, -⟩
    rcases hC4 t' htold with ⟨l, hl, hlid'⟩
    exact ⟨_, List.mem_map_of_mem _ hl, by rw [hFid l]; exact hlid'⟩
  · intro l' hl' x hx
    rcases List.mem_map.mp hl' with ⟨m, hm, rfl⟩
    by_cases hmid : (m.id == (list0.removeTask tid).id) = true
    · rw [if_pos hmid] at hx
      rcases mem_removeTask.mp hx with ⟨hin, hxne⟩
      rcases hC5 list0 hl0mem' x hin with ⟨t, ht, hid⟩
      refine ⟨t, List.mem_filter.mpr ⟨ht, ?_⟩, hid⟩
      simp [hid, hxne]
    · rw [if_neg hmid] at hx
      rcases hC5 m hm x hx with ⟨t, ht, hid⟩
      have htne : t.id ≠ tid := by
        intro hh
        have hteq : t = task := find?_key_unique TaskDoc.id hTN hT ht hh
        subst hteq
        have : m.id = t.list := (hC3 t ht m hm).mp (hid ▸ hx)
        apply hmid
        rw [hremid, hl0id']
        exact beq_iff_eq.mpr (by rw [← this])
      refine ⟨t, List.mem_filter.mpr ⟨ht, by simpa using htne⟩, hid⟩

theorem placement_reorder {db : DB} {u lid : Nat} {tids : List Nat} {db' : DB} {ev : Event}
    (hInv : TaskPlacement db)
    (hperm : ∀ l ∈ db.lists, l.id = lid → tids.Perm l.tasks)
    (h : reorderTasks db u lid tids = .ok (db', ev)) : TaskPlacement db' := by
  obtain ⟨list, board, hL, hB, hM, hV⟩ := reorderTasks_ok_inv h
  rw [reorderTasks_spec db u lid tids hL hB hM hV] at h
  rw [Except.ok.injEq, Prod.mk.injEq] at h
  obtain ⟨hdb, -⟩ := h
  obtain ⟨hTN, hLN, hC3, hC4, hC5⟩ := hInv
  obtain ⟨hNod, -⟩ := validation_facts db lid tids hTN hV
  rw [foldl_setTaskPos tids 0 db hNod] at hdb
  subst hdb
  have hlid : list.id = lid := find?_key_eq ListDoc.id hL
  have hlmem : list ∈ db.lists := List.mem_of_find?_eq_some hL
  have hpm : tids.Perm list.tasks := hperm list hlmem hlid
  have hnewid : ({ list with tasks := tids } : ListDoc).id = list.id := rfl
  have hFid : ∀ m : ListDoc,
      (if (m.id == ({ list with tasks := tids } : ListDoc).id) = true then
        { list with tasks := tids } else m).id = m.id := by
    intro m
    by_cases hm : (m.id == ({ list with tasks := tids } : ListDoc).id) = true
    · rw [if_pos hm]
      exact (beq_iff_eq.mp hm).symm
    · rw [if_neg hm]
  have hGfacts : ∀ t : TaskDoc,
      ((if t.id ∈ tids then { t with position := 0 + idxOf tids t.id } else t).id = t.id ∧
       (if t.id ∈ tids then { t with position := 0 + idxOf tids t.id } else t).list = t.list) := by
    intro t
    by_cases ht : t.id ∈ tids
    · rw [if_pos ht]
      exact ⟨rfl, rfl⟩
    · rw [if_neg ht]
      exact ⟨rfl, rfl⟩
  unfold TaskPlacement
  simp only [DB.saveList]
  refine ⟨?_, ?_, ?_, ?_, ?_⟩
  · rw [map_key_of_preserving TaskDoc.id _ (fun t => (hGfacts t).1)]
    exact hTN
  · rw [map_key_of_preserving ListDoc.id _ hFid]
    exact hLN
  · intro t' ht' l' hl'
    rcases List.mem_map.mp ht' with ⟨t, ht, rfl⟩
    rcases List.mem_map.mp hl' with ⟨m, hm, rfl⟩
    rw [(hGfacts t).1, (hGfacts t).2]
    by_cases hmid : (m.id == ({ list with tasks := tids } : ListDoc).id) = true
    · rw [if_pos hmid]
      have hmeq : m.id = list.id := beq_iff_eq.mp hmid
      constructor
      · intro hin
        have hin2 : t.id ∈ list.tasks := hpm.mem_iff.mp hin
        exact (hC3 t ht list hlmem).mp hin2
      · intro hl
        exact hpm.mem_iff.mpr ((hC3 t ht list hlmem).mpr hl)
    · rw [if_neg hmid]
      exact hC3 t ht m hm
  · intro t' ht'
    rcases List.mem_map.mp ht' with ⟨t, ht, rfl⟩
    rw [(hGfacts t).2]
    rcases hC4 t ht with ⟨l, hl, hlid'⟩
    exact ⟨_, List.mem_map_of_mem _ hl, by rw [hFid l]; exact hlid'⟩
  · intro l' hl' x hx
    rcases List.mem_map.mp hl' with ⟨m, hm, rfl⟩
    by_cases hmid : (m.id == ({ list with tasks := tids } : ListDoc).id) = true
    · rw [if_pos hmid] at hx
      have hx2 : x ∈ list.tasks := hpm.mem_iff.mp hx
      rcases hC5 list hlmem x hx2 with ⟨t, ht, hid⟩
      exact ⟨_, List.mem_map_of_mem _ ht, by rw [(hGfacts t).1]; exact hid⟩
    · rw [if_neg hmid] at hx
      rcases hC5 m hm x hx with ⟨t, ht, hid⟩
      exact ⟨_, List.mem_map_of_mem _ ht, by rw [(hGfacts t).1]; exact hid⟩

theorem placement_move {db : DB} {u tid src dst pos : Nat} {db' : DB} {ev : Event}
    (hInv : TaskPlacement db)
    (htrue : ∀ t ∈ db.tasks, t.id = tid → t.list = src)
    (h : moveTask db u tid src dst pos = .ok (db', ev)) : TaskPlacement db' := by
  obtain ⟨task, board, S, D, hT, hB, hM, hS, hD⟩ := moveTask_ok_inv h
  rw [moveTask_spec db u tid src dst pos hT hB hM hS hD] at h
  rw [Except.ok.injEq, Prod.mk.injEq] at h
  obtain ⟨hdb, -⟩ := h
  subst hdb
  have hkeep : ∀ (Y : DB) (c : Bool) (B : BoardDoc),
      TaskPlacement Y → TaskPlacement (if c = true then Y.saveBoard B else Y) := by
    intro Y c B hY
    cases c
    · simpa using hY
    · simp only [if_pos]
      exact taskPlacement_of_eq rfl rfl hY
  apply hkeep
  obtain ⟨hTN, hLN, hC3, hC4, hC5⟩ := hInv
  have htid : task.id = tid := find?_key_eq TaskDoc.id hT
  have htmem : task ∈ db.tasks := List.mem_of_find?_eq_some hT
  have htlist : task.list = src := htrue task htmem htid
  have hSid : S.id = src := find?_key_eq ListDoc.id hS
  have hSmem : S ∈ db.lists := List.mem_of_find?_eq_some hS
  have hDid : D.id = dst := find?_key_eq ListDoc.id hD
  have hDmem : D ∈ db.lists := List.mem_of_find?_eq_some hD
  have hA : (S.removeTask tid).id = S.id := rfl
  unfold TaskPlacement
  simp only [DB.saveTask, DB.saveList]
  have hHfacts : ∀ t : TaskDoc, t.id ≠ tid →
      (if (t.id == ({ task with list := dst, position := pos } : TaskDoc).id) = true
        then ({ task with list := dst, position := pos } : TaskDoc) else t) = t := by
    intro t htne
    rw [if_neg]
    intro hc
    exact htne (by rw [beq_iff_eq.mp hc, htid])
  have hHtask :
      (if (task.id == ({ task with list := dst, position := pos } : TaskDoc).id) = true
        then ({ task with list := dst, position := pos } : TaskDoc) else task)
        = ({ task with list := dst, position := pos } : TaskDoc) := by
    rw [if_pos]
    simp
  have hHid : ∀ t : TaskDoc,
      (if (t.id == ({ task with list := dst, position := pos } : TaskDoc).id) = true
        then ({ task with list := dst, position := pos } : TaskDoc) else t).id = t.id := by
    intro t
    by_cases hc : (t.id == ({ task with list := dst, position := pos } : TaskDoc).id) = true
    · rw [if_pos hc]
      exact (beq_iff_eq.mp hc).symm
    · rw [if_neg hc]
  have hF1id : ∀ m : ListDoc,
      (if (m.id == (S.removeTask tid).id) = true then S.removeTask tid else m).id = m.id := by
    intro m
    by_cases hc : (m.id == (S.removeTask tid).id) = true
    · rw [if_pos hc]
      exact (beq_iff_eq.mp hc).symm
    · rw [if_neg hc]
  have hF2id : ∀ m : ListDoc,
      (if (m.id == ({ D with tasks := spliceInsert D.tasks pos tid } : ListDoc).id) = true
        then ({ D with tasks := spliceInsert D.tasks pos tid } : ListDoc) else m).id = m.id := by
    intro m
    by_cases hc : (m.id == ({ D with tasks := spliceInsert D.tasks pos tid } : ListDoc).id) = true
    · rw [if_pos hc]
      exact (beq_iff_eq.mp hc).symm
    · rw [if_neg hc]
  refine ⟨?_, ?_, ?_, ?_, ?_⟩
  · rw [map_key_of_preserving TaskDoc.id _ hHid]
    exact hTN
  · rw [map_key_of_preserving ListDoc.id _ hF2id, map_key_of_preserving ListDoc.id _ hF1id]
    exact hLN
  · intro t' ht' l' hl'
    rcases List.mem_map.mp ht' with ⟨t, htm, rfl⟩
    rcases List.mem_map.mp hl' with ⟨m1, hm1, rfl⟩
    rcases List.mem_map.mp hm1 with ⟨m, hmm, rfl⟩
    by_cases htt : t.id = tid
    · obtain rfl : t = task := find?_key_unique TaskDoc.id hTN hT htm htt
      rw [hHtask]
      by_cases hmsrc : m.id = src
      · by_cases hsd : src = dst
        · simp [hA, hSid, hDid, hmsrc, hsd, mem_spliceInsert, htid]
        · simp [hA, hSid, hDid, hmsrc, hsd, mem_removeTask, htid]
      · by_cases hmdst : m.id = dst
        · have h5 : ¬ dst = src := by rw [← hmdst]; exact hmsrc
          simp [hA, hSid, hDid, hmdst, h5, mem_spliceInsert, htid]
        · have hmm3 := hC3 t htmem m hmm
          simp [hA, hSid, hDid, hmsrc, hmdst, htid]
          intro hmem
          exact hmsrc ((hmm3.mp (by rw [htid]; exact hmem)).trans htlist)
    · rw [hHfacts t htt]
      by_cases hmsrc : m.id = src
      · by_cases hsd : src = dst
        · have hDc := hC3 t htm D hDmem
          simp [hA, hSid, hDid, hmsrc, hsd, mem_spliceInsert, htt, hDc]
        · have hSc := hC3 t htm S hSmem
          simp [hA, hSid, hDid, hmsrc, hsd, mem_removeTask, htt, hSc]
      · by_cases hmdst : m.id = dst
        · have h5 : ¬ dst = src := by rw [← hmdst]; exact hmsrc
          have hDc := hC3 t htm D hDmem
          simp [hA, hSid, hDid, hmdst, h5, mem_spliceInsert, htt, hDc]
        · have hmc := hC3 t htm m hmm
          simp [hA, hSid, hDid, hmsrc, hmdst, hmc]
  · intro t' ht'
    rcases List.mem_map.mp ht' with ⟨t, htm, rfl⟩
    by_cases htt : t.id = tid
    · obtain rfl : t = task := find?_key_unique TaskDoc.id hTN hT htm htt
      rw [hHtask]
      refine ⟨_, List.mem_map_of_mem _ (List.mem_map_of_mem _ hDmem), ?_⟩
      rw [hF2id, hF1id, hDid]
    · rw [hHfacts t htt]
      rcases hC4 t htm with ⟨l, hl, hlid'⟩
      refine ⟨_, List.mem_map_of_mem _ (List.mem_map_of_mem _ hl), ?_⟩
      rw [hF2id, hF1id]
      exact hlid'
  · intro l' hl' x hx
    rcases List.mem_map.mp hl' with ⟨m1, hm1, rfl⟩
    rcases List.mem_map.mp hm1 with ⟨m, hmm, rfl⟩
    have hfromD : x ∈ D.tasks ∨ x = tid → ∃ t', t' ∈ (db.tasks.map (fun t =>
        if (t.id == ({ task with list := dst, position := pos } : TaskDoc).id) = true
        then ({ task with list := dst, position := pos } : TaskDoc) else t)) ∧ t'.id = x := by
      rintro (hxD | rfl)
      · rcases hC5 D hDmem x hxD with ⟨t, ht, hid⟩
        refine ⟨_, List.mem_map_of_mem _ ht, ?_⟩
        rw [hHid]
        exact hid
      · refine ⟨_, List.mem_map_of_mem _ htmem, ?_⟩
        rw [hHid]
        exact htid
    have hfromOld : ∀ lsrc : ListDoc, lsrc ∈ db.lists → x ∈ lsrc.tasks →
        ∃ t', t' ∈ (db.tasks.map (fun t =>
        if (t.id == ({ task with list := dst, position := pos } : TaskDoc).id) = true
        then ({ task with list := dst, position := pos } : TaskDoc) else t)) ∧ t'.id = x := by
      intro lsrc hlm hxm
      rcases hC5 lsrc hlm x hxm with ⟨t, ht, hid⟩
      refine ⟨_, List.mem_map_of_mem _ ht, ?_⟩
      rw [hHid]
      exact hid
    by_cases hmsrc : m.id = src
    · by_cases hsd : src = dst
      · simp [hA, hSid, hDid, hmsrc, hsd] at hx
        exact hfromD (mem_spliceInsert.mp hx)
      · simp [hA, hSid, hDid, hmsrc, hsd] at hx
        rcases mem_removeTask.mp hx with ⟨hxm, -⟩
        exact hfromOld S hSmem hxm
    · by_cases hmdst : m.id = dst
      · have h5 : ¬ dst = src := by rw [← hmdst]; exact hmsrc
        simp [hA, hSid, hDid, hmdst, h5] at hx
        exact hfromD (mem_spliceInsert.mp hx)
      · simp [hA, hSid, hDid, hmsrc, hmdst] at hx
        exact hfromOld m hmm hx

theorem placement_applyOp {db : DB} {op : Op} (hInv : TaskPlacement db) (hG : GoodOp db op) :
    TaskPlacement (applyOp db op) := by
  cases op with
  | create u lid ntid s =>
    show TaskPlacement (match createTask db u lid ntid s with
      | .ok (d, _) => d
      | .error _ => db)
    cases h : createTask db u lid ntid s with
    | ok r =>
      rcases r with ⟨d, ev⟩
      exact placement_create hInv hG h
    | error e => exact hInv
  | reorder u lid tids =>
    show TaskPlacement (match reorderTasks db u lid tids with
      | .ok (d, _) => d
      | .error _ => db)
    cases h : reorderTasks db u lid tids with
    | ok r =>
      rcases r with ⟨d, ev⟩
      exact placement_reorder hInv hG h
    | error e => exact hInv
  | move u tid src dst pos =>
    show TaskPlacement (match moveTask db u tid src dst pos with
      | .ok (d, _) => d
      | .error _ => db)
    cases h : moveTask db u tid src dst pos with
    | ok r =>
      rcases r with ⟨d, ev⟩
      exact placement_move hInv hG h
    | error e => exact hInv
  | delete u tid =>
    show TaskPlacement (match deleteTask db u tid with
      | .ok (d, _) => d
      | .error _ => db)
    cases h : deleteTask db u tid with
    | ok r =>
      rcases r with ⟨d, ev⟩
      exact placement_delete hInv h
    | error e => exact hInv

theorem placement_reachable {db0 db : DB} (h0 : TaskPlacement db0)
    (h : ReachableVia db0 db) : TaskPlacement db := by
  induction h with
  | refl => exact h0
  | step hreach hop happ ih =>
    rw [← happ]
    exact placement_applyOp ih hop

/-! ### Further observation lemmas -/

theorem except_map_comp {α β γ ε : Type} (e : Except ε α) (f : α → β) (g : β → γ) :
    e.map (fun a => g (f a)) = (e.map f).map g := by
  cases e <;> rfl

theorem foldl_setTaskPos_lists (ids : List Nat) (k : Nat) (db : DB) :
    ((withIdx k ids).foldl (fun d p => setTaskPos d p.1 p.2) db).lists = db.lists := by
  induction ids generalizing k db with
  | nil => rfl
  | cons x xs ih =>
    rw [withIdx, List.foldl_cons, ih]
    rfl

theorem foldl_setTaskPos_boards (ids : List Nat) (k : Nat) (db : DB) :
    ((withIdx k ids).foldl (fun d p => setTaskPos d p.1 p.2) db).boards = db.boards := by
  induction ids generalizing k db with
  | nil => rfl
  | cons x xs ih =>
    rw [withIdx, List.foldl_cons, ih]
    rfl

theorem count_key_eq_one {α : Type} (key : α → Nat) {xs : List α}
    (hN : (xs.map key).Nodup) {i : Nat} {y : α} (hy : y ∈ xs) (hky : key y = i) :
    (xs.filter (fun x => key x == i)).length = 1 := by
  induction xs with
  | nil => cases hy
  | cons a as ih =>
    rw [List.map_cons, List.nodup_cons] at hN
    by_cases ha : key a = i
    · have hnone : as.filter (fun x => key x == i) = [] := by
        rw [List.filter_eq_nil_iff]
        intro x hx hpx
        apply hN.1
        rw [ha, ← beq_iff_eq.mp hpx]
        exact List.mem_map_of_mem key hx
      rw [List.filter_cons_of_pos (by simpa using ha), hnone]
      rfl
    · have hya : y ≠ a := by
        intro hh
        exact ha (hh ▸ hky)
      have hyas : y ∈ as := by
        rcases List.mem_cons.mp hy with rfl | hmem
        · exact absurd rfl hya
        · exact hmem
      rw [List.filter_cons_of_neg (by simpa using ha)]
      exact ih hN.2 hyas

/-- The reordered list's stored array after a successful tasks-reorder is the
submitted id array. -/
theorem reorderTasks_findList_after (db : DB) (u lid : Nat) (tids : List Nat)
    {list : ListDoc} {board : BoardDoc}
    (hL : db.findList lid = some list) (hB : db.findBoard list.board = some board)
    (hM : board.isMember u = true)
    (hV : (db.tasks.filter (fun t => tids.contains t.id && t.list == lid)).length = tids.length) :
    (reorderTasks db u lid tids).map (fun r => (r.1.findList lid).map ListDoc.tasks)
      = .ok (some tids) := by
  rw [reorderTasks_spec db u lid tids hL hB hM hV]
  simp only [Except.map, saveList_findList]
  have hlists : (((withIdx 0 tids).foldl (fun d p => setTaskPos d p.1 p.2) db)).findList lid
      = db.findList lid := by
    unfold DB.findList
    rw [foldl_setTaskPos_lists]
  rw [hlists, hL]
  simp

/-- Every task named in a successful tasks-reorder ends with `position` equal
to its index in the submitted array; tasks not named keep their document. -/
theorem reorderTasks_findTask_after (db : DB) (u lid : Nat) (tids : List Nat)
    {list : ListDoc} {board : BoardDoc}
    (hTN : (db.tasks.map TaskDoc.id).Nodup)
    (hL : db.findList lid = some list) (hB : db.findBoard list.board = some board)
    (hM : board.isMember u = true)
    (hV : (db.tasks.filter (fun t => tids.contains t.id && t.list == lid)).length = tids.length)
    (j : Nat) :
    (reorderTasks db u lid tids).map (fun r => r.1.findTask j)
      = .ok ((db.findTask j).map
          (fun t => if t.id ∈ tids then { t with position := idxOf tids t.id } else t)) := by
  rw [reorderTasks_spec db u lid tids hL hB hM hV]
  obtain ⟨hNod, -⟩ := validation_facts db lid tids hTN hV
  rw [foldl_setTaskPos tids 0 db hNod]
  simp only [Except.map]
  have hstep : (({ db with tasks := db.tasks.map (fun t =>
      if t.id ∈ tids then { t with position := 0 + idxOf tids t.id } else t) } : DB).saveList
        { list with tasks := tids }).findTask j
      = ((db.findTask j).map (fun t =>
          if t.id ∈ tids then { t with position := 0 + idxOf tids t.id } else t)) := by
    unfold DB.saveList DB.findTask
    exact find?_map_of_key TaskDoc.id _ (fun t => by
      by_cases hc : t.id ∈ tids
      · rw [if_pos hc]
      · rw [if_neg hc]) db.tasks j
  rw [hstep]
  simp

/-- The full task collection after a successful move: only the moved task's
document changes; in particular no other task's `position` is renumbered. -/
theorem moveTask_tasks_after (db : DB) (u tid src dst pos : Nat)
    {task : TaskDoc} {board : BoardDoc} {S D : ListDoc}
    (hT : db.findTask tid = some task) (hB : db.findBoard task.board = some board)
    (hM : board.isMember u = true)
    (hS : db.findList src = some S) (hD : db.findList dst = some D) :
    (moveTask db u tid src dst pos).map (fun r => r.1.tasks) =
      .ok (db.tasks.map (fun t =>
        if t.id == tid then { task with list := dst, position := pos } else t)) := by
  rw [moveTask_spec db u tid src dst pos hT hB hM hS hD]
  have htid : task.id = tid := find?_key_eq TaskDoc.id hT
  have hf : ∀ dbq : DB, ∀ brq : BoardDoc,
      (if (src != dst) = true then dbq.saveBoard brq else dbq).tasks = dbq.tasks := by
    intro dbq brq
    split <;> rfl
  simp only [Except.map, hf]
  rw [← htid]
  rfl

/-- If every submitted id resolves to a stored task whose position is its
index in the submitted array, the canonical position order of the rewritten
list reproduces the submitted array. -/
theorem sortedTaskIds_reordered (db' : DB) (tids : List Nat)
    (hNod : tids.Nodup)
    (hdocs : ∀ a ∈ tids, ∃ t, db'.findTask a = some t ∧ t.id = a ∧ t.position = idxOf tids a)
    (l' : ListDoc) (hl : l'.tasks = tids) :
    sortedTaskIds db' l' = tids := by
  unfold sortedTaskIds tasksOfIds
  rw [hl]
  have hpair : (tids.filterMap (fun tid => db'.findTask tid)).Pairwise
      (fun a b => a.position ≤ b.position) := by
    rw [List.pairwise_filterMap]
    refine List.Pairwise.imp_of_mem ?_ (pairwise_idxOf_lt hNod)
    intro a b ha hb hab x hx y hy
    rcases hdocs a ha with ⟨t1, h1, -, hp1⟩
    rcases hdocs b hb with ⟨t2, h2, -, hp2⟩
    have hx' : x = t1 := by
      rw [h1] at hx
      exact (by simpa using hx : t1 = x).symm
    have hy' : y = t2 := by
      rw [h2] at hy
      exact (by simpa using hy : t2 = y).symm
    subst hx'
    subst hy'
    rw [hp1, hp2]
    omega
  rw [sortByPos_eq_self hpair]
  exact filterMap_map_id_of_inv (fun a ha => by
    rcases hdocs a ha with ⟨t, h1, h2, -⟩
    exact ⟨t, h1, h2⟩)

/-! ### Claim theorems -/

/-- Claim C1 (counterexample).  The claim says a move request whose named
source list is not the task's current list fails with NotFound or
InvalidOperation and changes nothing.  In `dbWrongSource` task 100 lives in
list 10, yet the request naming source 11 and destination 12 succeeds, task
100 is spliced into list 12 and its list reference is rewritten to 12. -/
theorem c1_counterexample :
    (moveTask dbWrongSource 9 100 11 12 0).isOk = true ∧
    (moveTask dbWrongSource 9 100 11 12 0).map
        (fun r => ((r.1.findList 12).map ListDoc.tasks, (r.1.findTask 100).map TaskDoc.list))
      = .ok (some [100], some 12) :=
  ⟨rfl, rfl⟩

/-- Claim C1 (amended).  The move handler never checks that the task belongs
to the named source list: whenever the task and both named lists exist and
the caller is a board member, the request succeeds; the task id is filtered
out of the named source list's array (a no-op when absent), spliced into the
destination array at the clamped position, and the task's list reference and
position are rewritten — while the task's id stays in its actual list's
array. -/
theorem c1_theorem (db : DB) (u tid src dst pos : Nat)
    (task : TaskDoc) (board : BoardDoc) (S D : ListDoc)
    (hT : db.findTask tid = some task) (hB : db.findBoard task.board = some board)
    (hM : board.isMember u = true)
    (hS : db.findList src = some S) (hD : db.findList dst = some D)
    (hwrong : task.list ≠ src) (hsd : src ≠ dst) :
    (moveTask db u tid src dst pos).isOk = true ∧
    (moveTask db u tid src dst pos).map (fun r => (r.1.findList src).map ListDoc.tasks)
      = .ok (some (S.tasks.filter (fun x => x != tid))) ∧
    (moveTask db u tid src dst pos).map (fun r => (r.1.findList dst).map ListDoc.tasks)
      = .ok (some (spliceInsert D.tasks pos tid)) ∧
    (moveTask db u tid src dst pos).map
        (fun r => (r.1.findTask tid).map (fun t => (t.list, t.position)))
      = .ok (some (dst, pos)) := by
  have hSid : S.id = src := find?_key_eq ListDoc.id hS
  have hDid : D.id = dst := find?_key_eq ListDoc.id hD
  have htid : task.id = tid := find?_key_eq TaskDoc.id hT
  refine ⟨?_, ?_, ?_, ?_⟩
  · rw [moveTask_spec db u tid src dst pos hT hB hM hS hD]
    rfl
  · have hObs := moveTask_findList_after db u tid src dst pos hT hB hM hS hD src
    rw [moveTask_spec db u tid src dst pos hT hB hM hS hD] at hObs ⊢
    simp only [Except.map, Except.ok.injEq] at hObs ⊢
    rw [hObs, hS]
    have h1 : ¬ src = dst := hsd
    simp [hSid, h1, ListDoc.removeTask]
  · have hObs := moveTask_findList_after db u tid src dst pos hT hB hM hS hD dst
    rw [moveTask_spec db u tid src dst pos hT hB hM hS hD] at hObs ⊢
    simp only [Except.map, Except.ok.injEq] at hObs ⊢
    rw [hObs, hD]
    simp [hDid]
  · have hObs := moveTask_findTask_after db u tid src dst pos hT hB hM hS hD tid
    rw [moveTask_spec db u tid src dst pos hT hB hM hS hD] at hObs ⊢
    simp only [Except.map, Except.ok.injEq] at hObs ⊢
    rw [hObs, hT]
    simp [htid]

/-- Claim C2 (counterexample).  The claim says a move whose destination list
belongs to a different board fails with InvalidOperation and mutates
nothing.  In `dbCrossBoard` the destination list 20 belongs to board 2 while
task 100 belongs to board 1, yet the request succeeds, list 20 receives the
task and the task's list reference becomes 20. -/
theorem c2_counterexample :
    (moveTask dbCrossBoard 9 100 10 20 0).isOk = true ∧
    (moveTask dbCrossBoard 9 100 10 20 0).map
        (fun r => ((r.1.findList 20).map ListDoc.tasks, (r.1.findTask 100).map TaskDoc.list))
      = .ok (some [100], some 20) :=
  ⟨rfl, rfl⟩

/-- Claim C2 (amended).  The move handler performs no same-board check: when
the task and both named lists exist and the caller is a member of the board
referenced by the task, the move succeeds even though the destination list
belongs to a different board, splicing the task id into the other board's
list and repointing the task's list reference there. -/
theorem c2_theorem (db : DB) (u tid src dst pos : Nat)
    (task : TaskDoc) (board : BoardDoc) (S D : ListDoc)
    (hT : db.findTask tid = some task) (hB : db.findBoard task.board = some board)
    (hM : board.isMember u = true)
    (hS : db.findList src = some S) (hD : db.findList dst = some D)
    (hcross : S.board ≠ D.board) :
    (moveTask db u tid src dst pos).isOk = true ∧
    (moveTask db u tid src dst pos).map (fun r => (r.1.findList dst).map ListDoc.tasks)
      = .ok (some (spliceInsert D.tasks pos tid)) ∧
    (moveTask db u tid src dst pos).map
        (fun r => (r.1.findTask tid).map (fun t => (t.list, t.position)))
      = .ok (some (dst, pos)) := by
  have hDid : D.id = dst := find?_key_eq ListDoc.id hD
  have htid : task.id = tid := find?_key_eq TaskDoc.id hT
  refine ⟨?_, ?_, ?_⟩
  · rw [moveTask_spec db u tid src dst pos hT hB hM hS hD]
    rfl
  · have hObs := moveTask_findList_after db u tid src dst pos hT hB hM hS hD dst
    rw [moveTask_spec db u tid src dst pos hT hB hM hS hD] at hObs ⊢
    simp only [Except.map, Except.ok.injEq] at hObs ⊢
    rw [hObs, hD]
    simp [hDid]
  · have hObs := moveTask_findTask_after db u tid src dst pos hT hB hM hS hD tid
    rw [moveTask_spec db u tid src dst pos hT hB hM hS hD] at hObs ⊢
    simp only [Except.map, Except.ok.injEq] at hObs ⊢
    rw [hObs, hT]
    simp [htid]

/-- Claim C4 (counterexample).  The claim says that after a successful
cross-list move both lists carry positions 0..n-1 in array order; on the
spec's own Scenario 2 (`dbScenario2`), after moving B (101) to Doing index 0
the code leaves C (102) with position 0, not 1, so the destination does not
carry positions 0..m-1. -/
theorem c4_counterexample :
    (moveTask dbScenario2 9 101 10 11 0).map (fun r =>
        ((r.1.findList 10).map ListDoc.tasks,
         (r.1.findList 11).map ListDoc.tasks,
         (r.1.findTask 102).map TaskDoc.position))
      = .ok (some [100], some [101, 102], some 0) ∧
    (some 0 : Option Nat) ≠ some 1 :=
  ⟨rfl, by decide⟩

/-- Claim C4 (amended).  A successful cross-list move removes the task id
from the source array and splices it into the destination array at the
clamped index, updates the moved task's list reference and sets its position
to the requested index — but performs no renumbering: every other task
document, including every other `position` field, is unchanged.  In
Scenario 2 Doing becomes [B, C] with positions 0 and 0. -/
theorem c4_theorem (db : DB) (u tid src dst pos : Nat)
    (task : TaskDoc) (board : BoardDoc) (S D : ListDoc)
    (hT : db.findTask tid = some task) (hB : db.findBoard task.board = some board)
    (hM : board.isMember u = true)
    (hS : db.findList src = some S) (hD : db.findList dst = some D)
    (hsd : src ≠ dst) :
    (moveTask db u tid src dst pos).isOk = true ∧
    (moveTask db u tid src dst pos).map (fun r => (r.1.findList src).map ListDoc.tasks)
      = .ok (some (S.tasks.filter (fun x => x != tid))) ∧
    (moveTask db u tid src dst pos).map (fun r => (r.1.findList dst).map ListDoc.tasks)
      = .ok (some (spliceInsert D.tasks pos tid)) ∧
    (moveTask db u tid src dst pos).map
        (fun r => (r.1.findTask tid).map (fun t => (t.list, t.position)))
      = .ok (some (dst, pos)) ∧
    (moveTask db u tid src dst pos).map (fun r => r.1.tasks)
      = .ok (db.tasks.map (fun t =>
          if t.id == tid then { task with list := dst, position := pos } else t)) := by
  have hSid : S.id = src := find?_key_eq ListDoc.id hS
  have hDid : D.id = dst := find?_key_eq ListDoc.id hD
  have htid : task.id = tid := find?_key_eq TaskDoc.id hT
  refine ⟨?_, ?_, ?_, ?_, ?_⟩
  · rw [moveTask_spec db u tid src dst pos hT hB hM hS hD]
    rfl
  · have hObs := moveTask_findList_after db u tid src dst pos hT hB hM hS hD src
    rw [moveTask_spec db u tid src dst pos hT hB hM hS hD] at hObs ⊢
    simp only [Except.map, Except.ok.injEq] at hObs ⊢
    rw [hObs, hS]
    have h1 : ¬ src = dst := hsd
    simp [hSid, h1, ListDoc.removeTask]
  · have hObs := moveTask_findList_after db u tid src dst pos hT hB hM hS hD dst
    rw [moveTask_spec db u tid src dst pos hT hB hM hS hD] at hObs ⊢
    simp only [Except.map, Except.ok.injEq] at hObs ⊢
    rw [hObs, hD]
    simp [hDid]
  · have hObs := moveTask_findTask_after db u tid src dst pos hT hB hM hS hD tid
    rw [moveTask_spec db u tid src dst pos hT hB hM hS hD] at hObs ⊢
    simp only [Except.map, Except.ok.injEq] at hObs ⊢
    rw [hObs, hT]
    simp [htid]
  · exact moveTask_tasks_after db u tid src dst pos hT hB hM hS hD

/-- Claim C5.  For every successful within-list reorder whose id array is a
permutation of the list's stored tasks, the list's stored array afterwards
equals the submitted array and the i-th submitted task's position field
equals i (a full renumber 0, 1, 2, ...), assuming unique stored task ids. -/
theorem c5_theorem (db : DB) (u lid : Nat) (tids : List Nat)
    (list : ListDoc) (board : BoardDoc)
    (hTN : (db.tasks.map TaskDoc.id).Nodup)
    (hL : db.findList lid = some list) (hB : db.findBoard list.board = some board)
    (hM : board.isMember u = true)
    (hV : (db.tasks.filter (fun t => tids.contains t.id && t.list == lid)).length = tids.length)
    (hperm : tids.Perm list.tasks) :
    (reorderTasks db u lid tids).map (fun r => (r.1.findList lid).map ListDoc.tasks)
      = .ok (some tids) ∧
    (reorderTasks db u lid tids).map
        (fun r => tids.map (fun tid => (r.1.findTask tid).map TaskDoc.position))
      = .ok ((List.range tids.length).map some) := by
  obtain ⟨hNod, hex⟩ := validation_facts db lid tids hTN hV
  refine ⟨reorderTasks_findList_after db u lid tids hL hB hM hV, ?_⟩
  rw [reorderTasks_spec db u lid tids hL hB hM hV, foldl_setTaskPos tids 0 db hNod]
  simp only [Except.map, Except.ok.injEq]
  have hstep : ∀ j : Nat, (({ db with tasks := db.tasks.map (fun t =>
       if t.id ∈ tids then { t with position := 0 + idxOf tids t.id } else t) } : DB).saveList
         { list with tasks := tids }).findTask j
       = (db.findTask j).map (fun t =>
           if t.id ∈ tids then { t with position := 0 + idxOf tids t.id } else t) := by
    intro j
    unfold DB.saveList DB.findTask
    exact find?_map_of_key TaskDoc.id _ (fun t => by
      by_cases hc : t.id ∈ tids
      · rw [if_pos hc]
      · rw [if_neg hc]) db.tasks j
  calc tids.map (fun tid => ((({ db with tasks := db.tasks.map (fun t =>
          if t.id ∈ tids then { t with position := 0 + idxOf tids t.id } else t) } : DB).saveList
            { list with tasks := tids }).findTask tid).map TaskDoc.position)
      = tids.map (fun tid => some (idxOf tids tid)) := by
        apply List.map_congr_left
        intro tid htid
        rcases hex tid htid with ⟨t, htmem, hid, -⟩
        have hfind : db.findTask tid = some t := by
          unfold DB.findTask
          have hk := find?_key_of_mem TaskDoc.id hTN htmem
          rw [hid] at hk
          exact hk
        rw [hstep tid, hfind]
        have hin : t.id ∈ tids := by rw [hid]; exact htid
        simp [hin, hid, htid]
    _ = (tids.map (idxOf tids)).map some := by
        rw [List.map_map]
        rfl
    _ = (List.range tids.length).map some := by rw [map_idxOf_range hNod]

/-- Claim C3 (counterexample).  The claim says every state reachable by
create / reorder / move / delete keeps every list's position-sorted task
order equal to its stored array.  Starting from `dbEmptyBoard` (where the
invariant holds) the five requests of `opsInterleave` — three creates and
two well-formed moves — produce a state where list 11 stores [101, 100, 102]
but its tasks' positions are 0, 1, 0, whose stable ascending sort is
[101, 102, 100]: the invariant fails on a reachable state because the move
handler never renumbers positions. -/
theorem c3_counterexample :
    OrderInvariant dbEmptyBoard ∧ ¬ OrderInvariant (applyOps dbEmptyBoard opsInterleave) := by
  constructor
  · decide
  · decide

/-- Claim C3 (amended).  What the code does guarantee: immediately after any
successful tasks-reorder, the reordered list's canonical order derived from
positions equals its stored array (both equal the submitted id array),
assuming unique stored task ids.  The invariant is re-established by reorder
but not preserved by move, as the counterexample shows. -/
theorem c3_theorem (db : DB) (u lid : Nat) (tids : List Nat)
    (list : ListDoc) (board : BoardDoc)
    (hTN : (db.tasks.map TaskDoc.id).Nodup)
    (hL : db.findList lid = some list) (hB : db.findBoard list.board = some board)
    (hM : board.isMember u = true)
    (hV : (db.tasks.filter (fun t => tids.contains t.id && t.list == lid)).length = tids.length) :
    (reorderTasks db u lid tids).map
        (fun r => (r.1.findList lid).map (fun l' => (sortedTaskIds r.1 l', l'.tasks)))
      = .ok (some (tids, tids)) := by
  obtain ⟨hNod, hex⟩ := validation_facts db lid tids hTN hV
  rw [reorderTasks_spec db u lid tids hL hB hM hV, foldl_setTaskPos tids 0 db hNod]
  simp only [Except.map, Except.ok.injEq]
  have hstep : ∀ j : Nat, (({ db with tasks := db.tasks.map (fun t =>
       if t.id ∈ tids then { t with position := 0 + idxOf tids t.id } else t) } : DB).saveList
         { list with tasks := tids }).findTask j
       = (db.findTask j).map (fun t =>
           if t.id ∈ tids then { t with position := 0 + idxOf tids t.id } else t) := by
    intro j
    unfold DB.saveList DB.findTask
    exact find?_map_of_key TaskDoc.id _ (fun t => by
      by_cases hc : t.id ∈ tids
      · rw [if_pos hc]
      · rw [if_neg hc]) db.tasks j
  have hfl : (({ db with tasks := db.tasks.map (fun t =>
       if t.id ∈ tids then { t with position := 0 + idxOf tids t.id } else t) } : DB).saveList
         { list with tasks := tids }).findList lid = some { list with tasks := tids } := by
    rw [saveList_findList]
    have hsame : ({ db with tasks := db.tasks.map (fun t =>
        if t.id ∈ tids then { t with position := 0 + idxOf tids t.id } else t) } : DB).findList lid
        = db.findList lid := rfl
    rw [hsame, hL]
    simp
  rw [hfl]
  have hsorted : sortedTaskIds (({ db with tasks := db.tasks.map (fun t =>
      if t.id ∈ tids then { t with position := 0 + idxOf tids t.id } else t) } : DB).saveList
        { list with tasks := tids }) { list with tasks := tids } = tids := by
    apply sortedTaskIds_reordered _ tids hNod _ _ rfl
    intro a ha
    rcases hex a ha with ⟨t, htmem, hid, -⟩
    have hfind : db.findTask a = some t := by
      unfold DB.findTask
      have hk := find?_key_of_mem TaskDoc.id hTN htmem
      rw [hid] at hk
      exact hk
    have hin : t.id ∈ tids := by rw [hid]; exact ha
    refine ⟨{ t with position := 0 + idxOf tids t.id }, ?_, by simpa using hid, by simp [hid]⟩
    rw [hstep a, hfind]
    simp [hin]
  show some (sortedTaskIds (({ db with tasks := db.tasks.map (fun t =>
      if t.id ∈ tids then { t with position := 0 + idxOf tids t.id } else t) } : DB).saveList
        { list with tasks := tids }) { list with tasks := tids }, tids) = some (tids, tids)
  rw [hsorted]

/-- Claim C9.  A successful move whose request names two different list ids
pushes exactly one activity record to the front of the owning board's log
and truncates the log to the 50 most recent entries (newest at index 0,
oldest evicted); a move request naming the same list twice leaves the log
untouched. -/
theorem c9_theorem (db : DB) (u tid src dst pos : Nat)
    (task : TaskDoc) (board : BoardDoc) (S D : ListDoc)
    (hT : db.findTask tid = some task) (hB : db.findBoard task.board = some board)
    (hM : board.isMember u = true)
    (hS : db.findList src = some S) (hD : db.findList dst = some D) :
    (src ≠ dst →
      (moveTask db u tid src dst pos).map
          (fun r => (r.1.findBoard task.board).map BoardDoc.activity)
        = .ok (some ((movedRecord u task.title S.title D.title :: board.activity).take 50))) ∧
    (src = dst →
      (moveTask db u tid src dst pos).map
          (fun r => (r.1.findBoard task.board).map BoardDoc.activity)
        = .ok (some board.activity)) ∧
    ((movedRecord u task.title S.title D.title :: board.activity).take 50).head?
      = some (movedRecord u task.title S.title D.title) ∧
    ((movedRecord u task.title S.title D.title :: board.activity).take 50).length ≤ 50 := by
  refine ⟨?_, ?_, ?_, ?_⟩
  · intro hsd
    have hobs := moveTask_activity_after db u tid src dst pos hT hB hM hS hD
    rw [if_pos hsd] at hobs
    exact hobs
  · intro hsd
    have hobs := moveTask_activity_after db u tid src dst pos hT hB hM hS hD
    rw [if_neg (fun hc => hc hsd)] at hobs
    exact hobs
  · rw [show (50 : Nat) = 49 + 1 from rfl, List.take_succ_cons]
    rfl
  · rw [List.length_take]
    omega

/-- Claim C10.  A lists-reorder request by a member of the named board sets
the `position` of every list whose id occurs in the submitted array to its
index in that array — with no check that the list belongs to the board, so
lists of other boards are repositioned too — and changes nothing else: no
other list field, no task, and no board document (including the board's own
`lists` array). -/
theorem c10_theorem (db : DB) (u bid : Nat) (ids : List Nat) (board : BoardDoc)
    (hB : db.findBoard bid = some board) (hM : board.isMember u = true)
    (hN : ids.Nodup) :
    reorderLists db u bid ids =
      .ok ({ db with lists := db.lists.map (fun l =>
              if l.id ∈ ids then { l with position := idxOf ids l.id } else l) },
        .listsReordered bid { boardId := bid, listIds := ids, userId := u }) := by
  rw [reorderLists_spec db u bid ids hB hM, foldl_setListPos ids 0 db hN]
  simp [Nat.zero_add]

/-- Claim C7 (counterexample).  The claim says the initiating session never
receives its own echo.  All route handlers emit through `req.io.to(room)`,
which delivers to every session in the room: with sessions 7 and 8 viewing
board 1 (`exRooms`) and session 7 initiating the move, the `task-moved`
event is delivered to [7, 8] — session 7 included. -/
theorem c7_counterexample :
    (moveTask dbScenario2 9 101 10 11 0).map (fun r => deliveredTo exRooms r.2) = .ok [7, 8] ∧
    (moveTask dbScenario2 9 101 10 11 0).map
        (fun r => (deliveredTo exRooms r.2).contains 7) = .ok true :=
  ⟨rfl, rfl⟩

/-- Claim C7 (amended).  The order-change events are emitted via
`req.io.to(boardRoom)` — the server handle, not the initiator's socket — so
each event is delivered to every session currently in the board's room,
including the initiating session's own socket whenever it has joined that
room; no session is excluded. -/
theorem c7_theorem (rooms : Nat → List Nat) (db : DB)
    (u tid src dst pos lid bid : Nat) (tids ids : List Nat) (s : Nat)
    (task : TaskDoc) (board : BoardDoc) (S D : ListDoc)
    (list : ListDoc) (board2 board3 : BoardDoc)
    (hT : db.findTask tid = some task) (hB : db.findBoard task.board = some board)
    (hM : board.isMember u = true)
    (hS : db.findList src = some S) (hD : db.findList dst = some D)
    (hL : db.findList lid = some list) (hB2 : db.findBoard list.board = some board2)
    (hM2 : board2.isMember u = true)
    (hV : (db.tasks.filter (fun t => tids.contains t.id && t.list == lid)).length = tids.length)
    (hB3 : db.findBoard bid = some board3) (hM3 : board3.isMember u = true)
    (hsm : s ∈ rooms task.board) (hsl : s ∈ rooms list.board) (hsb : s ∈ rooms bid) :
    (moveTask db u tid src dst pos).map (fun r => deliveredTo rooms r.2)
      = .ok (rooms task.board) ∧
    (moveTask db u tid src dst pos).map (fun r => (deliveredTo rooms r.2).contains s)
      = .ok true ∧
    (reorderTasks db u lid tids).map (fun r => deliveredTo rooms r.2)
      = .ok (rooms list.board) ∧
    (reorderTasks db u lid tids).map (fun r => (deliveredTo rooms r.2).contains s)
      = .ok true ∧
    (reorderLists db u bid ids).map (fun r => deliveredTo rooms r.2)
      = .ok (rooms bid) ∧
    (reorderLists db u bid ids).map (fun r => (deliveredTo rooms r.2).contains s)
      = .ok true := by
  refine ⟨?_, ?_, ?_, ?_, ?_, ?_⟩
  · rw [moveTask_spec db u tid src dst pos hT hB hM hS hD]
    rfl
  · rw [moveTask_spec db u tid src dst pos hT hB hM hS hD]
    simp only [Except.map, Except.ok.injEq]
    simp [deliveredTo, ioTo, Event.room]
    exact hsm
  · rw [reorderTasks_spec db u lid tids hL hB2 hM2 hV]
    rfl
  · rw [reorderTasks_spec db u lid tids hL hB2 hM2 hV]
    simp only [Except.map, Except.ok.injEq]
    simp [deliveredTo, ioTo, Event.room]
    exact hsl
  · rw [reorderLists_spec db u bid ids hB3 hM3]
    rfl
  · rw [reorderLists_spec db u bid ids hB3 hM3]
    simp only [Except.map, Except.ok.injEq]
    simp [deliveredTo, ioTo, Event.room]
    exact hsb

/-- Claim C8 (counterexample).  The claim says every order-change event
payload carries the full new ordered id list of every affected parent.  Two
moves from stores that differ only in the destination list's prior content
(`dbWrongSource` with Doing empty, `dbDoingFull` with Doing = [102]) emit
identical `task-moved` events yet leave the destination with different
orders ([100] vs [100, 102]): the task-moved payload is a delta that does
not determine the new order. -/
theorem c8_counterexample :
    (moveTask dbWrongSource 9 100 10 11 0).map (fun r => r.2)
      = (moveTask dbDoingFull 9 100 10 11 0).map (fun r => r.2) ∧
    (moveTask dbWrongSource 9 100 10 11 0).map
        (fun r => (r.1.findList 11).map ListDoc.tasks) = .ok (some [100]) ∧
    (moveTask dbDoingFull 9 100 10 11 0).map
        (fun r => (r.1.findList 11).map ListDoc.tasks) = .ok (some [100, 102]) ∧
    (some [100] : Option (List Nat)) ≠ some [100, 102] :=
  ⟨rfl, rfl, rfl, by decide⟩

/-- Claim C8 (amended).  `tasks-reordered` carries the affected list id with
the full new ordered id array (which equals the list's stored order), and
`lists-reordered` carries the board id with the full submitted list order;
but `task-moved` carries only the moved task id, the two request list ids,
the requested position, the board id and the user — a delta without the
destination's full order. -/
theorem c8_theorem (db : DB) (u lid bid tid src dst pos : Nat) (tids ids : List Nat)
    (list : ListDoc) (board2 : BoardDoc) (task : TaskDoc) (board : BoardDoc)
    (S D : ListDoc) (board3 : BoardDoc)
    (hL : db.findList lid = some list) (hB2 : db.findBoard list.board = some board2)
    (hM2 : board2.isMember u = true)
    (hV : (db.tasks.filter (fun t => tids.contains t.id && t.list == lid)).length = tids.length)
    (hB3 : db.findBoard bid = some board3) (hM3 : board3.isMember u = true)
    (hT : db.findTask tid = some task) (hB : db.findBoard task.board = some board)
    (hM : board.isMember u = true)
    (hS : db.findList src = some S) (hD : db.findList dst = some D) :
    (reorderTasks db u lid tids).map (fun r => r.2)
      = .ok (.tasksReordered list.board
          { listId := lid, taskIds := tids, boardId := list.board, userId := u }) ∧
    (reorderTasks db u lid tids).map (fun r => (r.1.findList lid).map ListDoc.tasks)
      = .ok (some tids) ∧
    (reorderLists db u bid ids).map (fun r => r.2)
      = .ok (.listsReordered bid { boardId := bid, listIds := ids, userId := u }) ∧
    (moveTask db u tid src dst pos).map (fun r => r.2)
      = .ok (.taskMoved task.board
          { taskId := tid, sourceListId := src, destinationListId := dst,
            newPosition := pos, boardId := task.board, userId := u }) := by
  refine ⟨?_, ?_, ?_, ?_⟩
  · rw [reorderTasks_spec db u lid tids hL hB2 hM2 hV]
    rfl
  · exact reorderTasks_findList_after db u lid tids hL hB2 hM2 hV
  · rw [reorderLists_spec db u bid ids hB3 hM3]
    rfl
  · rw [moveTask_spec db u tid src dst pos hT hB hM hS hD]
    rfl

/-- Claim C6 (counterexample).  The claim says every reachable state keeps
each task in exactly one list's array.  From `dbEmptyBoard` (which satisfies
the placement invariant) the two requests of `opsWrongSourceMove` — a create
followed by a move naming a source list the task does not belong to — leave
task 100 in the arrays of two lists, and the two requests of
`opsEmptyReorder` — a create followed by a reorder submitting the empty
array, which the validation accepts — leave task 100 in zero lists, while
the task document still exists in both cases. -/
theorem c6_counterexample :
    TaskPlacement dbEmptyBoard ∧
    ((applyOps dbEmptyBoard opsWrongSourceMove).lists.filter
        (fun l => l.tasks.contains 100)).length = 2 ∧
    ((applyOps dbEmptyBoard opsWrongSourceMove).findTask 100 ≠ none) ∧
    ((applyOps dbEmptyBoard opsEmptyReorder).lists.filter
        (fun l => l.tasks.contains 100)).length = 0 ∧
    ((applyOps dbEmptyBoard opsEmptyReorder).findTask 100 ≠ none) := by
  refine ⟨by decide, by decide, by decide, by decide, by decide⟩

/-- Claim C6 (amended).  In every state reachable from a state satisfying
the placement invariant through well-formed requests — creates with fresh
ids, deletes, reorders submitting a permutation of the stored array, and
moves naming the task's true current list as source — every task id appears
in the array of exactly one list, namely the list named by its list
reference. -/
theorem c6_theorem (db0 db : DB) (h0 : TaskPlacement db0) (h : ReachableVia db0 db) :
    TaskPlacement db ∧
    ∀ t ∈ db.tasks, (db.lists.filter (fun l => l.tasks.contains t.id)).length = 1 ∧
      ∀ l ∈ db.lists, (t.id ∈ l.tasks ↔ l.id = t.list) := by
  have hP := placement_reachable h0 h
  refine ⟨hP, ?_⟩
  obtain ⟨hTN, hLN, hC3, hC4, hC5⟩ := hP
  intro t ht
  refine ⟨?_, fun l hl => hC3 t ht l hl⟩
  rcases hC4 t ht with ⟨l0, hl0, hl0id⟩
  have hfeq : db.lists.filter (fun l => l.tasks.contains t.id)
      = db.lists.filter (fun l => l.id == t.list) := by
    apply List.filter_congr
    intro l hl
    have hiff := hC3 t ht l hl
    by_cases hc : l.id = t.list
    · have h1 : t.id ∈ l.tasks := hiff.mpr hc
      simp [h1, hc]
    · have h1 : t.id ∉ l.tasks := fun hx => hc (hiff.mp hx)
      simp [h1, hc]
  rw [hfeq]
  exact count_key_eq_one ListDoc.id hLN hl0 hl0id

/-! ### Witnesses -/

/-- Witness for `c1_theorem` at the wrong-source request of `dbWrongSource`. -/
theorem c1_witness :
    ({ id := 100, title := "A", list := 10, board := 1, position := 0 } : TaskDoc).list ≠ 11 ∧
    (11 : Nat) ≠ 12 ∧
    (moveTask dbWrongSource 9 100 11 12 0).isOk = true ∧
    (moveTask dbWrongSource 9 100 11 12 0).map
        (fun r => (r.1.findTask 100).map (fun t => (t.list, t.position)))
      = .ok (some (12, 0)) := by
  have h := c1_theorem dbWrongSource 9 100 11 12 0
    { id := 100, title := "A", list := 10, board := 1, position := 0 } exBoard
    { id := 11, title := "Doing", board := 1, tasks := [], position := 1 }
    { id := 12, title := "Done", board := 1, tasks := [], position := 2 }
    rfl rfl (by decide) rfl rfl (by decide) (by decide)
  exact ⟨by decide, by decide, h.1, h.2.2.2⟩

/-- Witness for `c2_theorem` at the cross-board request of `dbCrossBoard`. -/
theorem c2_witness :
    ({ id := 10, title := "Todo", board := 1, tasks := [100], position := 0 } : ListDoc).board
      ≠ ({ id := 20, title := "Other", board := 2, tasks := [], position := 0 } : ListDoc).board ∧
    (moveTask dbCrossBoard 9 100 10 20 0).isOk = true ∧
    (moveTask dbCrossBoard 9 100 10 20 0).map
        (fun r => (r.1.findTask 100).map (fun t => (t.list, t.position)))
      = .ok (some (20, 0)) := by
  have h := c2_theorem dbCrossBoard 9 100 10 20 0
    { id := 100, title := "A", list := 10, board := 1, position := 0 } exBoard
    { id := 10, title := "Todo", board := 1, tasks := [100], position := 0 }
    { id := 20, title := "Other", board := 2, tasks := [], position := 0 }
    rfl rfl (by decide) rfl rfl (by decide)
  exact ⟨by decide, h.1, h.2.2⟩

/-- Witness for `c3_theorem` at Scenario 1: reordering Backlog to
[Z, X, Y] re-establishes sorted-order = stored-order for that list. -/
theorem c3_witness :
    (dbScenario1.tasks.filter
        (fun t => [102, 100, 101].contains t.id && t.list == 10)).length
      = ([102, 100, 101] : List Nat).length ∧
    (reorderTasks dbScenario1 9 10 [102, 100, 101]).map
        (fun r => (r.1.findList 10).map (fun l' => (sortedTaskIds r.1 l', l'.tasks)))
      = .ok (some ([102, 100, 101], [102, 100, 101])) := by
  have h := c3_theorem dbScenario1 9 10 [102, 100, 101]
    { id := 10, title := "Backlog", board := 1, tasks := [100, 101, 102], position := 0 } exBoard
    (by decide) rfl rfl (by decide) (by decide)
  exact ⟨by decide, h⟩

/-- Witness for `c4_theorem` at Scenario 2: moving B to Doing index 0. -/
theorem c4_witness :
    (10 : Nat) ≠ 11 ∧
    (moveTask dbScenario2 9 101 10 11 0).isOk = true ∧
    (moveTask dbScenario2 9 101 10 11 0).map
        (fun r => (r.1.findList 11).map ListDoc.tasks)
      = .ok (some [101, 102]) ∧
    (moveTask dbScenario2 9 101 10 11 0).map
        (fun r => (r.1.findTask 101).map (fun t => (t.list, t.position)))
      = .ok (some (11, 0)) := by
  have h := c4_theorem dbScenario2 9 101 10 11 0
    { id := 101, title := "B", list := 10, board := 1, position := 1 } exBoard
    { id := 10, title := "Todo", board := 1, tasks := [100, 101], position := 0 }
    { id := 11, title := "Doing", board := 1, tasks := [102], position := 1 }
    rfl rfl (by decide) rfl rfl (by decide)
  exact ⟨by decide, h.1, h.2.2.1, h.2.2.2.1⟩

/-- Witness for `c5_theorem` at Scenario 1: after reordering Backlog with
[Z, X, Y] the stored array is [Z, X, Y] and positions are 0, 1, 2. -/
theorem c5_witness :
    ([102, 100, 101] : List Nat).Perm [100, 101, 102] ∧
    (reorderTasks dbScenario1 9 10 [102, 100, 101]).map
        (fun r => (r.1.findList 10).map ListDoc.tasks)
      = .ok (some [102, 100, 101]) ∧
    (reorderTasks dbScenario1 9 10 [102, 100, 101]).map
        (fun r => [102, 100, 101].map (fun tid => (r.1.findTask tid).map TaskDoc.position))
      = .ok ((List.range 3).map some) := by
  have h := c5_theorem dbScenario1 9 10 [102, 100, 101]
    { id := 10, title := "Backlog", board := 1, tasks := [100, 101, 102], position := 0 } exBoard
    (by decide) rfl rfl (by decide) (by decide) (by decide)
  exact ⟨by decide, h.1, h.2⟩

/-- Witness for `c6_theorem`: `dbScenario2` satisfies the placement
invariant, is trivially reachable from itself, and task 101 appears in
exactly one list's array. -/
theorem c6_witness :
    TaskPlacement dbScenario2 ∧
    (dbScenario2.lists.filter (fun l => l.tasks.contains 101)).length = 1 := by
  have h := c6_theorem dbScenario2 dbScenario2 (by decide) (ReachableVia.refl _)
  exact ⟨h.1,
    (h.2 { id := 101, title := "B", list := 10, board := 1, position := 1 } (by decide)).1⟩

/-- Witness for `c7_theorem` with sessions 7 and 8 viewing board 1 and
session 7 initiating: the move, reorder and lists-reorder events are all
delivered to session 7 too. -/
theorem c7_witness :
    7 ∈ exRooms 1 ∧
    (moveTask dbScenario2 9 101 10 11 0).map (fun r => deliveredTo exRooms r.2)
      = .ok (exRooms 1) ∧
    (moveTask dbScenario2 9 101 10 11 0).map
        (fun r => (deliveredTo exRooms r.2).contains 7) = .ok true ∧
    (reorderTasks dbScenario2 9 10 [100, 101]).map
        (fun r => (deliveredTo exRooms r.2).contains 7) = .ok true ∧
    (reorderLists dbScenario2 9 1 [11, 10]).map
        (fun r => (deliveredTo exRooms r.2).contains 7) = .ok true := by
  have h := c7_theorem exRooms dbScenario2 9 101 10 11 0 10 1 [100, 101] [11, 10] 7
    { id := 101, title := "B", list := 10, board := 1, position := 1 } exBoard
    { id := 10, title := "Todo", board := 1, tasks := [100, 101], position := 0 }
    { id := 11, title := "Doing", board := 1, tasks := [102], position := 1 }
    { id := 10, title := "Todo", board := 1, tasks := [100, 101], position := 0 } exBoard exBoard
    rfl rfl (by decide) rfl rfl rfl rfl (by decide) (by decide) rfl (by decide)
    (by decide) (by decide) (by decide)
  exact ⟨by decide, h.1, h.2.1, h.2.2.2.1, h.2.2.2.2.2⟩

/-- Witness for `c8_theorem` on `dbScenario2`: the reorder events carry the
full new order, the move event carries only the delta fields. -/
theorem c8_witness :
    (reorderTasks dbScenario2 9 10 [101, 100]).map (fun r => r.2)
      = .ok (.tasksReordered 1
          { listId := 10, taskIds := [101, 100], boardId := 1, userId := 9 }) ∧
    (reorderTasks dbScenario2 9 10 [101, 100]).map
        (fun r => (r.1.findList 10).map ListDoc.tasks) = .ok (some [101, 100]) ∧
    (reorderLists dbScenario2 9 1 [11, 10]).map (fun r => r.2)
      = .ok (.listsReordered 1 { boardId := 1, listIds := [11, 10], userId := 9 }) ∧
    (moveTask dbScenario2 9 101 10 11 0).map (fun r => r.2)
      = .ok (.taskMoved 1
          { taskId := 101, sourceListId := 10, destinationListId := 11,
            newPosition := 0, boardId := 1, userId := 9 }) := by
  have h := c8_theorem dbScenario2 9 10 1 101 10 11 0 [101, 100] [11, 10]
    { id := 10, title := "Todo", board := 1, tasks := [100, 101], position := 0 } exBoard
    { id := 101, title := "B", list := 10, board := 1, position := 1 } exBoard
    { id := 10, title := "Todo", board := 1, tasks := [100, 101], position := 0 }
    { id := 11, title := "Doing", board := 1, tasks := [102], position := 1 } exBoard
    rfl rfl (by decide) (by decide) rfl (by decide) rfl rfl (by decide) rfl rfl
  exact ⟨h.1, h.2.1, h.2.2.1, h.2.2.2⟩

/-- Witness for `c9_theorem`: the cross-list move of Scenario 2 prepends
exactly one `moved task` record to board 1's empty log. -/
theorem c9_witness :
    (10 : Nat) ≠ 11 ∧
    (moveTask dbScenario2 9 101 10 11 0).map
        (fun r => (r.1.findBoard 1).map BoardDoc.activity)
      = .ok (some [movedRecord 9 "B" "Todo" "Doing"]) := by
  have h := c9_theorem dbScenario2 9 101 10 11 0
    { id := 101, title := "B", list := 10, board := 1, position := 1 } exBoard
    { id := 10, title := "Todo", board := 1, tasks := [100, 101], position := 0 }
    { id := 11, title := "Doing", board := 1, tasks := [102], position := 1 }
    rfl rfl (by decide) rfl rfl
  exact ⟨by decide, h.1 (by decide)⟩

/-- Witness for `c10_theorem`: a member of board 1 reorders with
[20, 10]; list 20 — which belongs to board 2 — gets position 0, list 10
gets position 1, and nothing else changes. -/
theorem c10_witness :
    ([20, 10] : List Nat).Nodup ∧
    reorderLists dbCrossBoard 9 1 [20, 10] =
      .ok ({ tasks := [{ id := 100, title := "A", list := 10, board := 1, position := 0 }],
             lists := [{ id := 10, title := "Todo", board := 1, tasks := [100], position := 1 },
                       { id := 20, title := "Other", board := 2, tasks := [], position := 0 }],
             boards := dbCrossBoard.boards },
        .listsReordered 1 { boardId := 1, listIds := [20, 10], userId := 9 }) := by
  have h := c10_theorem dbCrossBoard 9 1 [20, 10] exBoard rfl (by decide) (by decide)
  exact ⟨by decide, h.trans (by rfl)⟩

end Collab
